import Mathlib

/-!
Verification development for the datacore-messaging repository.

The Python sources are shallowly embedded over `Str := List Char`.
Files are modelled as their character contents; line-oriented Python code
(`content.split('\n')`, `'\n'.join(...)`) is modelled by `splitOnL` /
`joinWith` over the newline character, with the same semantics as Python
`str.split` with a non-empty separator (which is what the sources use).
Regex-based rewrites (`mark-message.py`, the delete handler) are modelled
by functions that implement the leftmost-match / lazy-quantifier semantics
of the concrete patterns used in the sources, under the standing assumption
(true of every writer in the repository, and stated by the spec) that
record headers `* MESSAGE [...` occur at column 0 only.
-/

set_option maxRecDepth 4000

namespace DC

abbrev Str := List Char

/-- Python `s.startswith(p)` on character lists. -/
def startsWithL : Str → Str → Bool
  | [], _ => true
  | _ :: _, [] => false
  | p :: ps, c :: cs => p == c && startsWithL ps cs

/-- Python `s.endswith(p)`. -/
def endsWithL (p s : Str) : Bool := startsWithL p.reverse s.reverse

/-- Python `sub in s` (substring containment, true for the empty `sub`). -/
def containsL (sub : Str) : Str → Bool
  | [] => startsWithL sub []
  | c :: rest => startsWithL sub (c :: rest) || containsL sub rest

/-- Helper for `splitFuel`: prepend a character to the first chunk. -/
def consHead (c : Char) : List Str → List Str
  | [] => [[c]]
  | h :: t => (c :: h) :: t

/-- Fuelled worker for `splitOnL`; fuel `≥ length` gives Python semantics. -/
def splitFuel (sep : Str) : Nat → Str → List Str
  | _, [] => [[]]
  | 0, s => [s]
  | f + 1, c :: rest =>
    if !sep.isEmpty && startsWithL sep (c :: rest) then
      [] :: splitFuel sep f (List.drop (sep.length - 1) rest)
    else
      consHead c (splitFuel sep f rest)

/-- Python `s.split(sep)` for a non-empty `sep`. -/
def splitOnL (sep s : Str) : List Str := splitFuel sep s.length s

/-- Python `s.count(sub)` (non-overlapping occurrence count). -/
def countSub (sub s : Str) : Nat := (splitOnL sub s).length - 1

/-- Python `s.split(sep, 1)` when `sep` occurs: the two parts. -/
def splitOnce (sep : Str) : Str → Option (Str × Str)
  | [] => none
  | c :: rest =>
    if startsWithL sep (c :: rest) then
      some ([], List.drop (sep.length - 1) rest)
    else
      match splitOnce sep rest with
      | some (a, b) => some (c :: a, b)
      | none => none

/-- Python `'sep'.join(parts)`. -/
def joinWith (sep : Str) : List Str → Str
  | [] => []
  | [x] => x
  | x :: y :: rest => x ++ sep ++ joinWith sep (y :: rest)

/-- Python `s.replace(a, b)` for non-empty `a`. -/
def replaceAllL (pat rep s : Str) : Str := joinWith rep (splitOnL pat s)

/-- The whitespace set of Python `str.strip()` restricted to ASCII
(`\t`, `\n`, `\x0b`, `\x0c`, `\r`, space); the sources only strip
ASCII text. -/
def pyWs (c : Char) : Bool := c.isWhitespace || c == '\x0b' || c == '\x0c'

/-- Python `s.lstrip()` over ASCII whitespace. -/
def trimLeftL (s : Str) : Str := s.dropWhile pyWs

/-- Python `s.rstrip()`. -/
def trimRightL (s : Str) : Str := (s.reverse.dropWhile pyWs).reverse

/-- Python `s.strip()`. -/
def trimL (s : Str) : Str := trimRightL (trimLeftL s)

/-- Python `s.lower()` (ASCII use only in the sources). -/
def toLowerL (s : Str) : Str := s.map Char.toLower

/-- Index of the first occurrence of a character (`s.find(c)`, length if absent). -/
def firstIdx (c : Char) : Str → Nat
  | [] => 0
  | x :: rest => if x == c then 0 else firstIdx c rest + 1

/-- Python `s[a:b]` (empty when `b ≤ a`). -/
def sliceL (a b : Nat) (s : Str) : Str := List.drop a (List.take b s)

/-- The suffix of `s` after the first occurrence of `sep`, empty if none. -/
def afterFirst (sep s : Str) : Str :=
  match splitOnL sep s with
  | [] => []
  | [_] => []
  | _ :: rest => joinWith sep rest

/-- Python dict assignment `d[k] = v` (replace in place, else append). -/
def dset (k v : Str) : List (Str × Str) → List (Str × Str)
  | [] => [(k, v)]
  | (k0, v0) :: rest => if k0 = k then (k, v) :: rest else (k0, v0) :: dset k v rest

/-- Python dict lookup `d.get(k)`. -/
def dget : List (Str × Str) → Str → Option Str
  | [], _ => none
  | (k0, v0) :: rest, k => if k0 = k then some v0 else dget rest k

/-- Python dict lookup `d.get(k, dflt)`. -/
def dgetD (ps : List (Str × Str)) (k dflt : Str) : Str := (dget ps k).getD dflt

/-- Assoc-list lookup for relay user tables (Python `dict.get`). -/
def lookupA {α : Type} : List (Str × α) → Str → Option α
  | [], _ => none
  | (k, v) :: rest, q => if k = q then some v else lookupA rest q

/-- Python dict assignment for relay user tables. -/
def updAssoc {α : Type} : List (Str × α) → Str → α → List (Str × α)
  | [], k, v => [(k, v)]
  | (k0, v0) :: rest, k, v =>
    if k0 = k then (k, v) :: rest else (k0, v0) :: updAssoc rest k v

/-! ### Shared string constants of the sources -/

def nlV : Str := ['\n']
def msepV : Str := "\n* MESSAGE ".toList
def hdr11V : Str := "* MESSAGE [".toList
def starMsgV : Str := "* MESSAGE ".toList
def starSpV : Str := "* ".toList
def pstrV : Str := ":PROPERTIES:".toList
def estrV : Str := ":END:".toList
def cospV : Str := ": ".toList
def unreadTagV : Str := ":unread:".toList
def todoTagV : Str := ":todo:".toList
def doneTagV : Str := ":done:".toList
def wtagV : Str := ":TASK_STATUS: working".toList
def tstatV : Str := ":TASK_STATUS:".toList
def idColonV : Str := ":ID:".toList
def idspV : Str := ":ID: ".toList
def idKeyV : Str := "id".toList
def fromKeyV : Str := "from".toList
def threadKeyV : Str := "thread".toList
def replyToKeyV : Str := "reply_to".toList
def prioKeyV : Str := "priority".toList
def qmarkV : Str := "?".toList
def normalV : Str := "normal".toList
def highV : Str := "high".toList
def dashClaudeV : Str := "-claude".toList
def claudeV : Str := "claude".toList

/-! ### Record-block parsing

`inbox-watcher.py:parse_messages` and `task-queue.py:get_pending_tasks`
share one parsing loop; `datacore-msg.py:MessageWindow._parse_message` is a
variant with one fewer check on property lines.  The loop is a left fold
over the lines after the header with state (props dict, collected text
lines, in-properties flag).
-/

structure PSt where
  props : List (Str × Str)
  texts : List Str
  inProps : Bool

/-- One step of the property/body line loop of `parse_messages`
(`src/hooks/inbox-watcher.py` lines 87-99, identical in
`src/hooks/task-queue.py` lines 75-87). -/
def stepW (st : PSt) (line : Str) : PSt :=
  if containsL pstrV line then { st with inProps := true }
  else if containsL estrV line then { st with inProps := false }
  else if st.inProps && containsL cospV line then
    if startsWithL [':'] (trimL line) && containsL cospV (List.drop 1 (trimL line)) then
      match splitOnce cospV (List.drop 1 (trimL line)) with
      | some (k, v) => { st with props := dset (toLowerL k) v st.props }
      | none => st
    else st
  else if !st.inProps && !(trimL line).isEmpty then
    { st with texts := st.texts ++ [line] }
  else st

/-- One step of the property/body line loop of
`datacore-msg.py:_parse_message` (lines 1308-1320): the only difference
from `stepW` is that a stripped property line need only start with `:`. -/
def stepD (st : PSt) (line : Str) : PSt :=
  if containsL pstrV line then { st with inProps := true }
  else if containsL estrV line then { st with inProps := false }
  else if st.inProps && containsL cospV line then
    if startsWithL [':'] (trimL line) then
      match splitOnce cospV (List.drop 1 (trimL line)) with
      | some (k, v) => { st with props := dset (toLowerL k) v st.props }
      | none => st
    else st
  else if !st.inProps && !(trimL line).isEmpty then
    { st with texts := st.texts ++ [line] }
  else st

/-- Timestamp extraction shared by the parsers:
`ts = header[header.find("[")+1 : header.find("]")]`. -/
def timeSlice (header : Str) : Str :=
  if containsL ['['] header && containsL [']'] header then
    sliceL (firstIdx '[' header + 1) (firstIdx ']' header) header
  else []

/-- A parsed message as built by `inbox-watcher.py:parse_messages`. -/
structure WMsg where
  mid : Str
  frm : Str
  text : Str
  time : Str
  prio : Str
deriving DecidableEq, Repr

/-- `parse_messages` body for one block (`inbox-watcher.py` lines 68-109):
skip unless the header carries `:unread:`; parse properties and body;
yield a message only when an `id` property was parsed. -/
def blockMsgW (b : Str) : Option WMsg :=
  let lines := splitOnL nlV b
  let header := lines.headD []
  if !containsL unreadTagV header then none
  else
    let st := List.foldl stepW ⟨[], [], false⟩ (lines.drop 1)
    let mid := dgetD st.props idKeyV []
    if mid.isEmpty then none
    else some ⟨mid, dgetD st.props fromKeyV qmarkV,
               trimL (joinWith nlV st.texts), timeSlice header,
               dgetD st.props prioKeyV normalV⟩

/-- `inbox-watcher.py:parse_messages` over a whole inbox file. -/
def parseMessagesW (content : Str) : List WMsg :=
  ((splitOnL msepV content).drop 1).filterMap blockMsgW

/-- A pending task as built by `task-queue.py:get_pending_tasks`
(the `inbox` path field is dropped: the model is single-file). -/
structure TTask where
  mid : Str
  frm : Str
  text : Str
  prio : Str
deriving DecidableEq, Repr

/-- `get_pending_tasks` body for one block (`task-queue.py` lines 63-97);
identical parsing to `blockMsgW` but without the timestamp field. -/
def blockTaskQ (b : Str) : Option TTask :=
  let lines := splitOnL nlV b
  let header := lines.headD []
  if !containsL unreadTagV header then none
  else
    let st := List.foldl stepW ⟨[], [], false⟩ (lines.drop 1)
    let mid := dgetD st.props idKeyV []
    if mid.isEmpty then none
    else some ⟨mid, dgetD st.props fromKeyV qmarkV,
               trimL (joinWith nlV st.texts),
               dgetD st.props prioKeyV normalV⟩

/-- Lexicographic `<` on character lists (Python string comparison). -/
def strLt : Str → Str → Bool
  | [], [] => false
  | [], _ :: _ => true
  | _ :: _, [] => false
  | a :: as_, b :: bs => a < b || (a == b && strLt as_ bs)

/-- Strict order on the Python sort key `(0 if priority == "high" else 1, id)`. -/
def taskKeyLt (a b : Nat × Str) : Bool :=
  a.1 < b.1 || (a.1 == b.1 && strLt a.2 b.2)

/-- Stable insertion into a key-sorted list: the new element goes in
front of key-equal elements, because the fold below inserts elements
from the original list back to front (matching Python's stable sort). -/
def insByKey {α : Type} (key : α → Nat × Str) (x : α) : List α → List α
  | [] => [x]
  | h :: t => if taskKeyLt (key h) (key x) then h :: insByKey key x t else x :: h :: t

/-- Stable sort used for `tasks.sort(key=...)` / `messages.sort(key=...)`. -/
def sortByKey {α : Type} (key : α → Nat × Str) : List α → List α
  | [] => []
  | x :: rest => insByKey key x (sortByKey key rest)

/-- `task-queue.py:get_pending_tasks` (parse then priority/id sort). -/
def getPendingTasks (content : Str) : List TTask :=
  sortByKey (fun t => (if t.prio = highV then 0 else 1, t.mid))
    (((splitOnL msepV content).drop 1).filterMap blockTaskQ)

/-- First line containing `:ID:`, yielding `line.split(":ID:")[1].strip()`
(`task-queue.py` lines 117-121). -/
def firstIdLine : List Str → Option Str
  | [] => none
  | l :: rest =>
    if containsL idColonV l then some (trimL ((splitOnL idColonV l).getD 1 []))
    else firstIdLine rest

/-- `task-queue.py:get_working_tasks` (lines 106-125): ids of blocks that
contain `:TASK_STATUS: working` and have an `:ID:` line. -/
def getWorkingTasks (content : Str) : List Str :=
  ((splitOnL msepV content).drop 1).filterMap fun b =>
    if containsL wtagV b then firstIdLine (splitOnL nlV b) else none

/-! ### task-queue.py `next` and the inbox-watcher hook -/

/-- Output of `task-queue.py next` (the JSON it prints). -/
inductive QueueOut where
  | busy (working : Str)
  | empty
  | ok (task : TTask) (queued : Nat)
deriving DecidableEq, Repr

/-- `task-queue.py:cmd_next` (lines 128-153) as a file transformer: the
result is (printed report, inbox content after, state-file current task
after).  The inbox is returned to make explicit that `next` never
rewrites it. -/
def cmdNext (content : Str) (stCur : Option Str) :
    QueueOut × Str × Option Str :=
  match getWorkingTasks content with
  | w :: _ => (.busy w, content, stCur)
  | [] =>
    match getPendingTasks content with
    | [] => (.empty, content, stCur)
    | t :: rest => (.ok t rest.length, content, some t.mid)

/-- Inner properties loop of `inbox-watcher.py:mark_messages_as_working`
(lines 143-155): copy lines, inserting `:TASK_STATUS: working` and
`:STARTED_AT:` before the `:END:` line, then stop.  Returns the processed
lines and the remaining lines. -/
def mwProps (now : Str) : List Str → List Str × List Str
  | [] => ([], [])
  | p :: rest =>
    if containsL estrV p then
      (":TASK_STATUS: working".toList :: (":STARTED_AT: ".toList ++ now) :: [p], rest)
    else
      let (a, b) := mwProps now rest
      (p :: a, b)

/-- One pass of `mark_messages_as_working` for one id (lines 122-161):
fuelled because the inner loop consumes a variable number of lines. -/
def mwGo (mid now : Str) : Nat → List Str → List Str
  | 0, ls => ls
  | f + 1, [] => []
  | f + 1, l :: rest =>
    if startsWithL hdr11V l && containsL unreadTagV l
        && ((l :: rest).take 15).any (fun x => containsL mid x) then
      let (pr, rest2) := mwProps now rest
      replaceAllL " :unread:".toList [] l :: pr ++ mwGo mid now f rest2
    else
      l :: mwGo mid now f rest

/-- `inbox-watcher.py:mark_messages_as_working` for a list of ids. -/
def markMessagesAsWorking (ids : List Str) (now : Str) (content : Str) : Str :=
  ids.foldl (fun c mid => joinWith nlV (mwGo mid now (splitOnL nlV c).length (splitOnL nlV c))) content

/-- What `inbox-watcher.py:main` prints. -/
inductive WOut where
  | noMessages
  | busyStatus (working pending : Nat)
  | dispatch (task : WMsg) (remaining : Nat)
deriving DecidableEq, Repr

/-- `inbox-watcher.py:get_working_task_count` (lines 170-179):
`content.count(":TASK_STATUS: working")`. -/
def workingTaskCount (content : Str) : Nat := countSub wtagV content

/-- `inbox-watcher.py:main` (lines 182-243) on an existing inbox, as a
file transformer (report, inbox content after). -/
def watcherMain (now : Str) (content : Str) : WOut × Str :=
  match parseMessagesW content with
  | [] => (.noMessages, content)
  | m :: ms =>
    if workingTaskCount content > 0 then
      (.busyStatus (workingTaskCount content) (m :: ms).length, content)
    else
      match sortByKey (fun x => (if x.prio = highV then 0 else 1, x.mid)) (m :: ms) with
      | [] => (.noMessages, content)
      | t :: _ =>
        (.dispatch t ms.length, markMessagesAsWorking [t.mid] now content)

/-! ### mark-message.py

`mark_message` rewrites the file with
`re.subn(r'(\* MESSAGE \[[^\]]+\])([^\n]*)(.*?:ID: [^\n]*<id>[^\n]*)',
replace_tags, content, flags=re.DOTALL)`.  With DOTALL and the lazy
group 3, a match starts at the leftmost `* MESSAGE [` header whose
position precedes an `:ID: `-line containing the id, and extends to the
end of that line; `replace_tags` keeps group 1, drops group 2 entirely
(its cleaned `tags` variable is never interpolated), and re-emits
group 3 verbatim. -/

inductive MarkAct where
  | todo
  | done
  | read
deriving DecidableEq, Repr

/-- Tag suffix appended by `replace_tags` (mark-message.py lines 55-60). -/
def tagSuffix : MarkAct → Str
  | .todo => " :todo:".toList
  | .done => " :done:".toList
  | .read => []

/-- Does a line satisfy the regex fragment `\* MESSAGE \[[^\]]+\]`? -/
def isHeaderRe (l : Str) : Bool :=
  startsWithL hdr11V l &&
    !((List.drop 11 l).takeWhile (fun c => c != ']')).isEmpty &&
    ((List.drop 11 l).takeWhile (fun c => c != ']')).length < (List.drop 11 l).length

/-- Group 1 of the header regex: `* MESSAGE [` up to the first `]`. -/
def hdrStem (l : Str) : Str :=
  hdr11V ++ (List.drop 11 l).takeWhile (fun c => c != ']') ++ [']']

/-- `replace_tags` applied to a matched header line: group 1 plus the new
tag; group 2 (everything else on the header line) is discarded. -/
def rewriteHeader (act : MarkAct) (l : Str) : Str := hdrStem l ++ tagSuffix act

/-- Does a line contain `:ID: ` followed, within the line, by the id
(regex fragment `:ID: [^\n]*<id>[^\n]*`)? -/
def idLineMatch (mid l : Str) : Bool :=
  decide (2 ≤ (splitOnL idspV l).length) && containsL mid (afterFirst idspV l)

/-- The `re.subn` loop of `mark_message`: scan for headers followed by a
matching `:ID: ` line, rewrite each matched header, and continue after the
matched `:ID: ` line.  Fuelled; fuel `≥ length` suffices. -/
def mmGo (mid : Str) (act : MarkAct) : Nat → List Str → List Str × Nat
  | 0, ls => (ls, 0)
  | _ + 1, [] => ([], 0)
  | f + 1, l :: rest =>
    if isHeaderRe l && rest.any (idLineMatch mid) then
      match rest.dropWhile (fun x => !idLineMatch mid x) with
      | [] => let (t, n) := mmGo mid act f rest; (l :: t, n)
      | lj :: post =>
        let (t, n) := mmGo mid act f post
        (rewriteHeader act l :: rest.takeWhile (fun x => !idLineMatch mid x) ++ lj :: t, n + 1)
    else
      let (t, n) := mmGo mid act f rest
      (l :: t, n)

/-- `mark-message.py:mark_message` (lines 39-69) on one inbox file:
`some` of the rewritten content when a match was found. -/
def markMessage (mid : Str) (act : MarkAct) (content : Str) : Option Str :=
  if containsL mid content then
    let ls := splitOnL nlV content
    match mmGo mid act ls.length ls with
    | (ls2, n + 1) => some (joinWith nlV ls2)
    | (_, 0) => none
  else none

/-! ### datacore-msg.py `_mark_message_by_id` -/

/-- Header rewrite of `_mark_message_by_id` (datacore-msg.py lines
1115-1120): single-pass removal of every ` :unread:`/` :todo:`/` :done:`
occurrence (the regex `re.sub(r' :(unread|todo|done):', '', line)`),
then `rstrip` plus the new tag.  Fuelled scan. -/
def stripStatusTags : Nat → Str → Str
  | 0, s => s
  | _ + 1, [] => []
  | f + 1, c :: rest =>
    if startsWithL " :unread:".toList (c :: rest) then
      stripStatusTags f (List.drop 8 rest)
    else if startsWithL " :todo:".toList (c :: rest) then
      stripStatusTags f (List.drop 6 rest)
    else if startsWithL " :done:".toList (c :: rest) then
      stripStatusTags f (List.drop 6 rest)
    else c :: stripStatusTags f rest

/-- The action argument of `_mark_message_by_id` (`"todo" | "done" | "clear"`). -/
def mbiHeader (act : MarkAct) (l : Str) : Str :=
  let h := stripStatusTags l.length l
  match act with
  | .todo => trimRightL h ++ " :todo:".toList
  | .done => trimRightL h ++ " :done:".toList
  | .read => h

/-- Line loop of `_mark_message_by_id` (lines 1104-1127): every header
line whose 10-line lookahead window contains the id is rewritten. -/
def mbiGo (mid : Str) (act : MarkAct) : List Str → List Str × Bool
  | [] => ([], false)
  | l :: rest =>
    if startsWithL hdr11V l && ((l :: rest).take 10).any (fun x => containsL mid x) then
      let (t, _) := mbiGo mid act rest
      (mbiHeader act l :: t, true)
    else
      let (t, m) := mbiGo mid act rest
      (l :: t, m)

/-- `datacore-msg.py:MessageWindow._mark_message_by_id` (lines 1087-1135)
on one inbox file. -/
def markMessageById (mid : Str) (act : MarkAct) (content : Str) : Option Str :=
  if containsL mid content then
    match mbiGo mid act (splitOnL nlV content) with
    | (ls2, true) => some (joinWith nlV ls2)
    | (_, false) => none
  else none

/-! ### send-reply.py `mark_task_done` -/

/-- Inner properties loop of `mark_task_done` (send-reply.py lines
122-139): rewrite `:TASK_STATUS:` lines to `done`, insert
`:COMPLETED_AT:` before the `:END:` line, then stop. -/
def mtdProps (now : Str) : List Str → List Str × List Str
  | [] => ([], [])
  | p :: rest =>
    if containsL tstatV p then
      let (a, b) := mtdProps now rest
      (":TASK_STATUS: done".toList :: a, b)
    else if containsL estrV p then
      ((":COMPLETED_AT: ".toList ++ now) :: [p], rest)
    else
      let (a, b) := mtdProps now rest
      (p :: a, b)

/-- Header rewrite of `mark_task_done` (lines 116-117): append ` :done:`
unless already present — note no stripping of `:unread:`/`:todo:`. -/
def mtdHeader (l : Str) : Str :=
  if containsL doneTagV l then l else trimRightL l ++ " :done:".toList

/-- Outer line loop of `mark_task_done` (lines 106-145): every header
whose 20-line lookahead window contains the id is completed.  Fuelled. -/
def mtdGo (mid now : Str) : Nat → List Str → List Str × Bool
  | 0, ls => (ls, false)
  | _ + 1, [] => ([], false)
  | f + 1, l :: rest =>
    if startsWithL hdr11V l && ((l :: rest).take 20).any (fun x => containsL mid x) then
      let (pr, rest2) := mtdProps now rest
      let (t, _) := mtdGo mid now f rest2
      (mtdHeader l :: pr ++ t, true)
    else
      let (t, m) := mtdGo mid now f rest
      (l :: t, m)

/-- `send-reply.py:mark_task_done` (lines 91-154) on one inbox file. -/
def markTaskDone (mid now : Str) (content : Str) : Option Str :=
  if containsL mid content then
    let ls := splitOnL nlV content
    match mtdGo mid now ls.length ls with
    | (ls2, true) => some (joinWith nlV ls2)
    | (_, false) => none
  else none

/-! ### datacore-msg.py `_on_delete_message`

The handler removes blocks with
`re.sub(r'\n\* MESSAGE \[[^\]]+\][^\n]*\n:PROPERTIES:.*?:ID: <id>.*?:END:\n.*?(?=\n\* |\Z)', '', content, flags=re.DOTALL)`.
With DOTALL and lazy quantifiers a match runs from the newline before the
leftmost header that is followed (anywhere later) by an `:ID: <id>`
occurrence, through that occurrence, the next line ending `:END:`, and on
to just before the next line starting `* ` (or the end of file). -/

/-- Drop lines through the first one ending with `:END:` (the lazy
`.*?:END:\n` step); `none` when there is no such line (no match). -/
def dropThruEnd : List Str → Option (List Str)
  | [] => none
  | l :: rest => if endsWithL estrV l then some rest else dropThruEnd rest

/-- The `re.sub` scan over the lines after the first (every line in the
scan is preceded by a newline, as the pattern requires).  Fuelled. -/
def delGo (mid : Str) : Nat → List Str → List Str × Bool
  | 0, ls => (ls, false)
  | _ + 1, [] => ([], false)
  | f + 1, l :: rest =>
    if isHeaderRe l
        && (match rest with | r1 :: _ => startsWithL pstrV r1 | [] => false)
        && rest.any (fun x => containsL (idspV ++ mid) x) then
      match rest.dropWhile (fun x => !containsL (idspV ++ mid) x) with
      | [] => let (t, m) := delGo mid f rest; (l :: t, m)
      | lj :: post =>
        match dropThruEnd (lj :: post) with
        | none => let (t, m) := delGo mid f rest; (l :: t, m)
        | some afterEnd =>
          let rest3 := afterEnd.dropWhile (fun x => !startsWithL starSpV x)
          let (t, _) := delGo mid f rest3
          (t, true)
    else
      let (t, m) := delGo mid f rest
      (l :: t, m)

/-- `datacore-msg.py:MessageWindow._on_delete_message` (lines 723-739) on
one inbox file: `some` of the rewritten content when it changed. -/
def deleteMessage (mid : Str) (content : Str) : Option Str :=
  if containsL mid content then
    match splitOnL nlV content with
    | [] => none
    | l0 :: rest =>
      match delGo mid rest.length rest with
      | (r2, true) => some (joinWith nlV (l0 :: r2))
      | (_, false) => none
  else none

/-! ### datacore-msg.py `_write_to_inbox` and `_parse_message` -/

/-- A parsed message as built by `datacore-msg.py:_parse_message`
(lines 1289-1334). -/
structure MsgD where
  mid : Str
  frm : Str
  text : Str
  time : Str
  unread : Bool
  todo : Bool
  done : Bool
  thr : Option Str
  rto : Option Str
deriving DecidableEq, Repr

/-- Timestamp extraction of `_parse_message` (lines 1297-1302): the
bracketed slice, then `parts[3]` of its space-split if it has at least
four parts, else the empty string. -/
def timeOfD (header : Str) : Str :=
  if containsL ['['] header && containsL [']'] header then
    let parts := splitOnL [' '] (timeSlice header)
    if 4 ≤ parts.length then parts.getD 3 [] else []
  else []

/-- `datacore-msg.py:_parse_message` on one block.  The Python body is
wrapped in `try/except`, but no statement in it can raise on a list of
lines (`split` never returns an empty list), so the model is total. -/
def parseBlockD (b : Str) : MsgD :=
  let lines := splitOnL nlV b
  let header := lines.headD []
  let st := List.foldl stepD ⟨[], [], false⟩ (lines.drop 1)
  ⟨dgetD st.props idKeyV [], dgetD st.props fromKeyV qmarkV,
   trimL (joinWith nlV st.texts), timeOfD header,
   containsL unreadTagV header, containsL todoTagV header,
   containsL doneTagV header,
   dget st.props threadKeyV, dget st.props replyToKeyV⟩

/-- Parsing a whole inbox file with `_parse_message` per block, as the
window views do (`content.split("\n* MESSAGE ")[1:]`). -/
def parseAllD (content : Str) : List MsgD :=
  ((splitOnL msepV content).drop 1).map parseBlockD

/-- Optional property line of `_write_to_inbox`: appended only when the
Python value is truthy (non-empty). -/
def optPropLine (pfx : Str) : Option Str → List Str
  | some v => if v.isEmpty then [] else [pfx ++ v]
  | none => []

/-- The property lines written by `_write_to_inbox` (lines 1229-1237). -/
def entryProps (mid frm toU : Str) (thr rto : Option Str) : List Str :=
  [":ID: ".toList ++ mid, ":FROM: ".toList ++ frm, ":TO: ".toList ++ toU]
    ++ optPropLine ":THREAD: ".toList thr
    ++ optPropLine ":REPLY_TO: ".toList rto

/-- The record text appended by `datacore-msg.py:_write_to_inbox`
(lines 1240-1246): leading newline, header with `:unread:`, properties
block, body, trailing newline. -/
def writeEntryD (ts mid frm toU : Str) (thr rto : Option Str) (body : Str) : Str :=
  "\n* MESSAGE ".toList ++ ts ++ " :unread:\n:PROPERTIES:\n".toList
    ++ joinWith nlV (entryProps mid frm toU thr rto)
    ++ "\n:END:\n".toList ++ body ++ nlV

/-- `_write_to_inbox` as a file transformer (append). -/
def writeToInboxD (content ts mid frm toU : Str) (thr rto : Option Str)
    (body : Str) : Str :=
  content ++ writeEntryD ts mid frm toU thr rto body

/-! ### Relay servers

Two servers are modelled: the standalone relay
(`src/relay/datacore-msg-relay.py`, `RelayServer`) and the embedded relay
(`src/datacore-msg.py`, `EmbeddedRelay`).  WebSocket frames are JSON
objects; they are modelled as ordered key/value lists mirroring the
`send_json` dict literals.  Sockets are abstract identifiers; an output
is a `(socket, frame)` pair, in emission order. -/

/-- Flat JSON values as used by the relay frames. -/
inductive JVal where
  | s (v : Str)
  | b (v : Bool)
  | num (v : Nat)
  | strs (vs : List Str)
  | smap (m : List (Str × Str))
  | null
deriving DecidableEq, Repr

abbrev Frame := List (Str × JVal)

/-- Field lookup in a frame. -/
def jget : Frame → Str → Option JVal
  | [], _ => none
  | (k, v) :: rest, q => if k = q then some v else jget rest q

/-- Session record of the standalone relay (`User`, relay lines 37-43). -/
structure SUser where
  ws : Str
  wl : List Str
deriving DecidableEq, Repr

/-- Session record of the embedded relay (`RelayUser`, datacore-msg.py
lines 122-128). -/
structure EUser where
  ws : Str
  wl : List Str
  status : Str
deriving DecidableEq, Repr

/-- Auto-reply text of the standalone relay (lines 90-92). -/
def autoBodyR (owner fromU : Str) : Str :=
  "Auto-reply: @".toList ++ owner
    ++ "-claude is not accepting messages from @".toList ++ fromU
    ++ ". Please contact @".toList ++ owner ++ " directly.".toList

/-- Auto-reply text of the embedded relay (datacore-msg.py line 151);
also the exact body stated by the spec. -/
def autoBodyE (owner fromU : Str) : Str :=
  "Auto-reply: @".toList ++ owner
    ++ "-claude is not accepting messages from @".toList ++ fromU
    ++ ".".toList

/-- `RelayServer.resolve_claude_target` (relay lines 71-94):
returns (resolved target, allowed, auto-reply text). -/
def resolveClaudeTargetR (users : List (Str × SUser)) (fromU toU : Str) :
    Str × Bool × Option Str :=
  if toU = claudeV then (fromU ++ dashClaudeV, true, none)
  else if endsWithL dashClaudeV toU then
    let owner := List.take (toU.length - 7) toU
    match lookupA users owner with
    | some u =>
      if !u.wl.isEmpty && !u.wl.contains fromU then
        (toU, false, some (autoBodyR owner fromU))
      else (toU, true, none)
    | none => (toU, true, none)
  else (toU, true, none)

/-- `EmbeddedRelay.resolve_claude_target` (datacore-msg.py lines 141-153):
identical except for the auto-reply text. -/
def resolveClaudeTargetE (users : List (Str × EUser)) (fromU toU : Str) :
    Str × Bool × Option Str :=
  if toU = claudeV then (fromU ++ dashClaudeV, true, none)
  else if endsWithL dashClaudeV toU then
    let owner := List.take (toU.length - 7) toU
    match lookupA users owner with
    | some u =>
      if !u.wl.isEmpty && !u.wl.contains fromU then
        (toU, false, some (autoBodyE owner fromU))
      else (toU, true, none)
    | none => (toU, true, none)
  else (toU, true, none)

/-- Result value of `route_message` (`True` / `False` / `"auto_replied"`). -/
inductive RouteRes where
  | delivered
  | notDelivered
  | autoReplied
deriving DecidableEq, Repr

/-- The synthetic auto-reply `message` frame (relay lines 103-109,
datacore-msg.py lines 159-165: same dict literal). -/
def autoFrame (resolved body : Str) : Frame :=
  [("type".toList, .s "message".toList), ("from".toList, .s resolved),
   ("text".toList, .s body), ("priority".toList, .s normalV),
   ("auto_reply".toList, .b true)]

/-- The delivery `message` frame `{"type": "message", "from": f, **payload}`. -/
def msgFrame (fromU : Str) (payload : Frame) : Frame :=
  ("type".toList, .s "message".toList) :: ("from".toList, .s fromU) :: payload

/-- `RelayServer.route_message` (relay lines 96-120): the guard is
`if not is_allowed and auto_reply and sender_ws`. -/
def routeMessageR (users : List (Str × SUser)) (fromU toU : Str)
    (payload : Frame) (senderWs : Option Str) :
    RouteRes × List (Str × Frame) :=
  match resolveClaudeTargetR users fromU toU with
  | (resolved, allowed, ar) =>
    match senderWs, ar with
    | some sw, some a =>
      if !allowed && !a.isEmpty then (.autoReplied, [(sw, autoFrame resolved a)])
      else
        match lookupA users resolved with
        | some r => (.delivered, [(r.ws, msgFrame fromU payload)])
        | none => (.notDelivered, [])
    | _, _ =>
      match lookupA users resolved with
      | some r => (.delivered, [(r.ws, msgFrame fromU payload)])
      | none => (.notDelivered, [])

/-- `EmbeddedRelay.route_message` (datacore-msg.py lines 155-176):
identical control flow (its resolver differs). -/
def routeMessageE (users : List (Str × EUser)) (fromU toU : Str)
    (payload : Frame) (senderWs : Option Str) :
    RouteRes × List (Str × Frame) :=
  match resolveClaudeTargetE users fromU toU with
  | (resolved, allowed, ar) =>
    match senderWs, ar with
    | some sw, some a =>
      if !allowed && !a.isEmpty then (.autoReplied, [(sw, autoFrame resolved a)])
      else
        match lookupA users resolved with
        | some r => (.delivered, [(r.ws, msgFrame fromU payload)])
        | none => (.notDelivered, [])
    | _, _ =>
      match lookupA users resolved with
      | some r => (.delivered, [(r.ws, msgFrame fromU payload)])
      | none => (.notDelivered, [])

/-- Python `s.lstrip("@")`. -/
def lstripAt (s : Str) : Str := s.dropWhile (fun c => c == '@')

/-- The `send` payload built by the standalone handler (relay lines
239-244). -/
def sendPayloadR (text prio msgIdv : Str) (ts : Nat) : Frame :=
  [("text".toList, .s text), ("priority".toList, .s prio),
   ("msg_id".toList, .s msgIdv), ("timestamp".toList, .num ts)]

/-- The `send` payload built by the embedded handler (datacore-msg.py
lines 253-263), with optional thread / reply_to fields gated on
truthiness. -/
def sendPayloadE (text prio msgIdv : Str) (ts : Nat)
    (thr rto : Option Str) : Frame :=
  [("text".toList, .s text), ("priority".toList, .s prio),
   ("msg_id".toList, .s msgIdv), ("timestamp".toList, .num ts)]
    ++ (match thr with
        | some t => if t.isEmpty then [] else [("thread".toList, .s t)]
        | none => [])
    ++ (match rto with
        | some r => if r.isEmpty then [] else [("reply_to".toList, .s r)]
        | none => [])

/-- `send_ack` of the standalone handler (relay lines 248-263). -/
def ackFrameR (resolved msgIdv : Str) (res : RouteRes) : Frame :=
  match res with
  | .autoReplied =>
    [("type".toList, .s "send_ack".toList), ("to".toList, .s resolved),
     ("msg_id".toList, .s msgIdv), ("delivered".toList, .b false),
     ("auto_replied".toList, .b true)]
  | .delivered =>
    [("type".toList, .s "send_ack".toList), ("to".toList, .s resolved),
     ("msg_id".toList, .s msgIdv), ("delivered".toList, .b true),
     ("queued".toList, .b false)]
  | .notDelivered =>
    [("type".toList, .s "send_ack".toList), ("to".toList, .s resolved),
     ("msg_id".toList, .s msgIdv), ("delivered".toList, .b false),
     ("queued".toList, .b true)]

/-- `send_ack` of the embedded handler (datacore-msg.py lines 269-272). -/
def ackFrameE (resolved : Str) (res : RouteRes) : Frame :=
  match res with
  | .autoReplied =>
    [("type".toList, .s "send_ack".toList), ("to".toList, .s resolved),
     ("delivered".toList, .b false), ("auto_replied".toList, .b true)]
  | .delivered =>
    [("type".toList, .s "send_ack".toList), ("to".toList, .s resolved),
     ("delivered".toList, .b true)]
  | .notDelivered =>
    [("type".toList, .s "send_ack".toList), ("to".toList, .s resolved),
     ("delivered".toList, .b false)]

/-- The `send` branch of the standalone websocket handler (relay lines
215-263), for an authenticated `username` on socket `ws`: the frames
emitted, in order. -/
def handleSendR (users : List (Str × SUser)) (username ws : Str)
    (toRaw text prio msgIdv : Str) (ts : Nat) : List (Str × Frame) :=
  let toU := lstripAt toRaw
  if toU.isEmpty || text.isEmpty then
    [(ws, [("type".toList, .s "error".toList),
           ("message".toList, .s "Missing \x27to\x27 or \x27text\x27".toList)])]
  else
    match resolveClaudeTargetR users username toU with
    | (resolved, _, _) =>
      match routeMessageR users username toU (sendPayloadR text prio msgIdv ts) (some ws) with
      | (res, outs) => outs ++ [(ws, ackFrameR resolved msgIdv res)]

/-- The `send` branch of the embedded handler (datacore-msg.py lines
245-272); empty `to`/`text` are skipped silently there. -/
def handleSendE (users : List (Str × EUser)) (username ws : Str)
    (toRaw text prio msgIdv : Str) (ts : Nat) (thr rto : Option Str) :
    List (Str × Frame) :=
  let toU := lstripAt toRaw
  if toU.isEmpty || text.isEmpty then []
  else
    match resolveClaudeTargetE users username toU with
    | (resolved, _, _) =>
      match routeMessageE users username toU (sendPayloadE text prio msgIdv ts thr rto) (some ws) with
      | (res, outs) => outs ++ [(ws, ackFrameE resolved res)]

/-! ### Auth handling -/

/-- `auth_error` frame. -/
def authErrFrame (msg : Str) : Frame :=
  [("type".toList, .s "auth_error".toList), ("message".toList, .s msg)]

/-- `auth_ok` of the standalone relay (relay lines 194-198): username and
online list only — no statuses map. -/
def authOkFrameS (u : Str) (onl : List Str) : Frame :=
  [("type".toList, .s "auth_ok".toList), ("username".toList, .s u),
   ("online".toList, .strs onl)]

/-- `auth_ok` of the embedded relay (datacore-msg.py lines 237-242):
username, online list and statuses map. -/
def authOkFrameE (u : Str) (onl : List Str) (sts : List (Str × Str)) : Frame :=
  [("type".toList, .s "auth_ok".toList), ("username".toList, .s u),
   ("online".toList, .strs onl), ("statuses".toList, .smap sts)]

/-- `presence_change` of the standalone relay (lines 282-287). -/
def presenceFrameS (u status : Str) (onl : List Str) : Frame :=
  [("type".toList, .s "presence_change".toList), ("user".toList, .s u),
   ("status".toList, .s status), ("online".toList, .strs onl)]

/-- `presence_change` of the embedded relay (lines 184-191). -/
def presenceFrameE (u status : Str) (onl : List Str)
    (sts : List (Str × Str)) : Frame :=
  [("type".toList, .s "presence_change".toList), ("user".toList, .s u),
   ("status".toList, .s status), ("online".toList, .strs onl),
   ("statuses".toList, .smap sts)]

/-- `broadcast_presence` of the standalone relay (lines 280-294). -/
def bcastS (users : List (Str × SUser)) (u status : Str) : List (Str × Frame) :=
  (users.filter (fun p => p.1 ≠ u)).map
    (fun p => (p.2.ws, presenceFrameS u status (users.map Prod.fst)))

/-- `EmbeddedRelay.broadcast_presence` (lines 178-193). -/
def bcastE (users : List (Str × EUser)) (u status : Str) : List (Str × Frame) :=
  (users.filter (fun p => p.1 ≠ u)).map
    (fun p => (p.2.ws, presenceFrameE u status (users.map Prod.fst)
      (users.map (fun q => (q.1, q.2.status)))))

/-- The `auth` branch of the standalone handler (relay lines 158-201):
new user table and emitted frames.  `rs` is `RELAY_SECRET`; closing the
evicted predecessor socket is a side task and emits no frame. -/
def relayAuthS (rs : Str) (users : List (Str × SUser)) (ws : Str)
    (dSecret dUser : Str) (dWl : List Str) :
    List (Str × SUser) × List (Str × Frame) :=
  if rs.isEmpty then (users, [(ws, authErrFrame "Server not configured (no RELAY_SECRET)".toList)])
  else if dSecret ≠ rs then (users, [(ws, authErrFrame "Invalid secret".toList)])
  else if dUser.isEmpty then (users, [(ws, authErrFrame "Username required".toList)])
  else
    let users2 := updAssoc users dUser ⟨ws, dWl⟩
    (users2, (ws, authOkFrameS dUser (users2.map Prod.fst))
      :: bcastS users2 dUser "online".toList)

/-- The `auth` branch of the embedded handler (datacore-msg.py lines
210-243). -/
def relayAuthE (secret : Str) (users : List (Str × EUser)) (ws : Str)
    (dSecret dUser : Str) (dWl : List Str) (dStatus : Option Str) :
    List (Str × EUser) × List (Str × Frame) :=
  if dSecret ≠ secret then (users, [(ws, authErrFrame "Invalid secret".toList)])
  else if dUser.isEmpty then (users, [(ws, authErrFrame "Username required".toList)])
  else
    let st := dStatus.getD "online".toList
    let users2 := updAssoc users dUser ⟨ws, dWl, st⟩
    (users2, (ws, authOkFrameE dUser (users2.map Prod.fst)
        (users2.map (fun q => (q.1, q.2.status))))
      :: bcastE users2 dUser st)

/-! ### Concrete inputs used by witnesses and counterexamples -/

/-- A two-record inbox; the second record has id `msg-b`. -/
def twoRecContent : Str :=
  ("\n* MESSAGE [2025-12-10 Wed 10:00] :unread:\n:PROPERTIES:\n:ID: msg-a\n:FROM: bob\n:END:\nbody-a\n" ++
   "\n* MESSAGE [2025-12-11 Thu 11:00] :unread:\n:PROPERTIES:\n:ID: msg-b\n:FROM: ali\n:END:\nbody-b\n").toList

/-- A two-record inbox whose first record has an empty body, so the
second record's id falls inside the first header's 10-line window. -/
def shortRecContent : Str :=
  ("\n* MESSAGE [2025-12-10 Wed 10:00] :unread:\n:PROPERTIES:\n:ID: msg-a\n:FROM: bob\n:TO: me\n:END:\n" ++
   "\n* MESSAGE [2025-12-11 Thu 11:00] :unread:\n:PROPERTIES:\n:ID: msg-b\n:FROM: ali\n:END:\nbody-b\n").toList

/-- An inbox with one `:todo:`-tagged record carrying id `msg-a`. -/
def todoRecContent : Str :=
  ("\n* MESSAGE [2025-12-10 Wed 10:00] :todo:\n:PROPERTIES:\n:ID: msg-a\n:TASK_STATUS: working\n:END:\nbody-a\n").toList

/-- An agent inbox with one working record and one unread pending record. -/
def workingContent : Str :=
  ("\n* MESSAGE [2025-12-12 Fri 10:00]\n:PROPERTIES:\n:ID: msg-w\n:TASK_STATUS: working\n:END:\ntask one\n" ++
   "\n* MESSAGE [2025-12-12 Fri 10:05] :unread:\n:PROPERTIES:\n:ID: msg-p\n:FROM: bob\n:END:\ntask two\n").toList

/-- An agent inbox with one working record and no unread record. -/
def workingOnlyContent : Str :=
  "\n* MESSAGE [2025-12-12 Fri 10:00]\n:PROPERTIES:\n:ID: msg-w\n:TASK_STATUS: working\n:END:\ntask one\n".toList

/-- An inbox whose trailing record is truncated after its `:ID:` line,
before the `:END:` line. -/
def truncatedContent : Str :=
  "\n* MESSAGE [2025-12-12 Fri 10:10] :unread:\n:PROPERTIES:\n:ID: msg-t".toList

/-- The default record used where `List.getLastD` needs one. -/
def dfltMsgD : MsgD := ⟨[], [], [], [], false, false, false, none, none⟩

/-- The property key a line would contribute in the property branch of
`stepW`, independent of the in-properties flag (used to state that a
truncated block contributes no `id`). -/
def propKeyW (l : Str) : Option Str :=
  if containsL pstrV l then none
  else if containsL estrV l then none
  else if containsL cospV l then
    if startsWithL [':'] (trimL l) && containsL cospV (List.drop 1 (trimL l)) then
      match splitOnce cospV (List.drop 1 (trimL l)) with
      | some (k, _) => some (toLowerL k)
      | none => none
    else none
  else none

/-- Statement helper: the props dict after the three fixed property
lines plus an optional `:THREAD:` line. -/
def entryDictT (mid frm toU : Str) (thr : Option Str)
    (init : List (Str × Str)) : List (Str × Str) :=
  match thr with
  | some t =>
    if t.isEmpty then dset "to".toList toU (dset fromKeyV frm (dset idKeyV mid init))
    else dset threadKeyV t (dset "to".toList toU (dset fromKeyV frm (dset idKeyV mid init)))
  | none => dset "to".toList toU (dset fromKeyV frm (dset idKeyV mid init))

/-- The props dict produced by parsing the property lines written by
`_write_to_inbox` (statement helper for the round-trip theorem). -/
def entryDict (mid frm toU : Str) (thr rto : Option Str)
    (init : List (Str × Str)) : List (Str × Str) :=
  match rto with
  | some r =>
    if r.isEmpty then entryDictT mid frm toU thr init
    else dset replyToKeyV r (entryDictT mid frm toU thr init)
  | none => entryDictT mid frm toU thr init

/-- Statement helper: `l` is a property line `:<KEY>: <value>` as the
parser's property branch consumes it. -/
def propLineOK (key v l : Str) : Prop :=
  l = (':' :: key) ++ cospV ++ v ∧ containsL pstrV l = false
    ∧ containsL estrV l = false ∧ trimL l = l
    ∧ splitOnce cospV (List.drop 1 l) = some (key, v)

/-! ### General lemmas about the string primitives -/

theorem startsWith_self_append (p z : Str) : startsWithL p (p ++ z) = true := by
  induction p with
  | nil => rfl
  | cons c cs ih => simp [startsWithL, ih]

theorem startsWith_take {p s : Str} (h : startsWithL p s = true) :
    List.take p.length s = p := by
  induction p generalizing s with
  | nil => rfl
  | cons c cs ih =>
    cases s with
    | nil => simp [startsWithL] at h
    | cons d ds =>
      simp only [startsWithL, Bool.and_eq_true, beq_iff_eq] at h
      simp [List.take, h.1.symm, ih h.2]

theorem contains_append_sep (sep x y : Str) :
    containsL sep (x ++ sep ++ y) = true := by
  induction x with
  | nil => simp [containsL]; cases h : sep ++ y with
    | nil =>
      have : sep = [] := by
        cases sep with
        | nil => rfl
        | cons a as => simp at h
      subst this; rfl
    | cons c cs =>
      rw [containsL]
      have : startsWithL sep (c :: cs) = true := by
        rw [← h]; exact startsWith_self_append sep y
      simp [this]
  | cons c cs ih =>
    rw [List.cons_append, List.cons_append, containsL]
    rw [List.append_assoc] at ih
    simp [ih]

theorem contains_cons_false {sep : Str} {c : Char} {s : Str}
    (h : containsL sep (c :: s) = false) :
    startsWithL sep (c :: s) = false ∧ containsL sep s = false := by
  rw [containsL] at h
  exact ⟨by revert h; cases startsWithL sep (c :: s) <;> simp,
         by revert h; cases containsL sep s <;> simp⟩

theorem contains_nonempty {sep s : Str} (h : containsL sep s = false) : sep ≠ [] := by
  intro he; subst he
  cases s with
  | nil => simp [containsL, startsWithL] at h
  | cons c cs => rw [containsL] at h; simp [startsWithL] at h

/-! ### Unfolding lemmas for `splitOnL` -/

theorem splitFuel_fuel_irrel (sep : Str) :
    ∀ (f1 f2 : Nat) (s : Str), s.length ≤ f1 → s.length ≤ f2 →
      splitFuel sep f1 s = splitFuel sep f2 s := by
  intro f1
  induction f1 with
  | zero =>
    intro f2 s h1 _
    cases s with
    | nil => cases f2 <;> rfl
    | cons c cs => simp at h1
  | succ g ih =>
    intro f2 s h1 h2
    cases s with
    | nil => cases f2 <;> rfl
    | cons c cs =>
      cases f2 with
      | zero => simp at h2
      | succ h =>
        rw [splitFuel, splitFuel]
        by_cases hc : (!sep.isEmpty && startsWithL sep (c :: cs)) = true
        · rw [if_pos hc, if_pos hc]
          have hlen : (List.drop (sep.length - 1) cs).length ≤ g := by
            have := List.length_drop (sep.length - 1) cs
            simp at h1; omega
          have hlen2 : (List.drop (sep.length - 1) cs).length ≤ h := by
            have := List.length_drop (sep.length - 1) cs
            simp at h2; omega
          rw [ih h (List.drop (sep.length - 1) cs) hlen hlen2]
        · rw [if_neg hc, if_neg hc]
          have hg : cs.length ≤ g := by simp at h1; omega
          have hh : cs.length ≤ h := by simp at h2; omega
          rw [ih h cs hg hh]

theorem splitOnL_nil (sep : Str) : splitOnL sep [] = [[]] := rfl

theorem splitOnL_cons_match {sep : Str} (c : Char) (rest : Str)
    (hne : sep ≠ []) (hm : startsWithL sep (c :: rest) = true) :
    splitOnL sep (c :: rest) = [] :: splitOnL sep (List.drop (sep.length - 1) rest) := by
  have hcond : (!sep.isEmpty && startsWithL sep (c :: rest)) = true := by
    cases sep with
    | nil => exact absurd rfl hne
    | cons a as => simp [List.isEmpty, hm]
  have hl : (c :: rest).length = rest.length + 1 := rfl
  rw [splitOnL, hl, splitFuel, if_pos hcond]
  rw [splitOnL]
  have hd := List.length_drop (sep.length - 1) rest
  exact congrArg ([] :: ·)
    (splitFuel_fuel_irrel sep rest.length (List.drop (sep.length - 1) rest).length
      (List.drop (sep.length - 1) rest) (by omega) (by omega))

theorem splitOnL_cons_nomatch {sep : Str} (c : Char) (rest : Str)
    (hm : startsWithL sep (c :: rest) = false) :
    splitOnL sep (c :: rest) = consHead c (splitOnL sep rest) := by
  have hcond : (!sep.isEmpty && startsWithL sep (c :: rest)) = false := by
    simp [hm]
  have hl : (c :: rest).length = rest.length + 1 := rfl
  rw [splitOnL, hl, splitFuel, if_neg (by simp [hcond])]
  rfl

theorem splitFuel_ne_nil (sep : Str) : ∀ (f : Nat) (s : Str), splitFuel sep f s ≠ [] := by
  intro f
  induction f with
  | zero => intro s; cases s <;> simp [splitFuel]
  | succ g ih =>
    intro s
    cases s with
    | nil => simp [splitFuel]
    | cons c cs =>
      rw [splitFuel]
      by_cases hc : (!sep.isEmpty && startsWithL sep (c :: cs)) = true
      · rw [if_pos hc]; simp
      · rw [if_neg hc]
        cases hsp : splitFuel sep g cs with
        | nil => exact absurd hsp (ih cs)
        | cons h t => simp [consHead]

theorem splitOnL_ne_nil (sep s : Str) : splitOnL sep s ≠ [] :=
  splitFuel_ne_nil sep s.length s

theorem split_of_not_contains {sep s : Str} (h : containsL sep s = false) :
    splitOnL sep s = [s] := by
  induction s with
  | nil => rfl
  | cons c cs ih =>
    obtain ⟨h1, h2⟩ := contains_cons_false h
    rw [splitOnL_cons_nomatch c cs h1, ih h2]
    rfl

theorem split_length_two {sep s : Str} (h : containsL sep s = true) (hne : sep ≠ []) :
    2 ≤ (splitOnL sep s).length := by
  induction s with
  | nil =>
    rw [containsL] at h
    cases sep with
    | nil => exact absurd rfl hne
    | cons a as => simp [startsWithL] at h
  | cons c cs ih =>
    by_cases hs : startsWithL sep (c :: cs) = true
    · rw [splitOnL_cons_match c cs hne hs]
      have := splitOnL_ne_nil sep (List.drop (sep.length - 1) cs)
      cases hsp : splitOnL sep (List.drop (sep.length - 1) cs) with
      | nil => exact absurd hsp this
      | cons a t => simp
    · rw [containsL] at h
      have hs' : startsWithL sep (c :: cs) = false := by
        revert hs; cases startsWithL sep (c :: cs) <;> simp
      rw [hs'] at h; simp at h
      rw [splitOnL_cons_nomatch c cs hs']
      have := ih h
      cases hsp : splitOnL sep cs with
      | nil => exact absurd hsp (splitOnL_ne_nil sep cs)
      | cons a t =>
        rw [hsp] at this
        simp [consHead]
        simp at this
        omega

/-! ### Newline splitting and joining -/

theorem splitNl_newline (s : Str) : splitOnL nlV ('\n' :: s) = [] :: splitOnL nlV s := by
  have h := @splitOnL_cons_match nlV '\n' s (by decide) (by simp [nlV, startsWithL])
  simpa [nlV] using h

theorem splitNl_cons {c : Char} (hc : c ≠ '\n') (s : Str) :
    splitOnL nlV (c :: s) = consHead c (splitOnL nlV s) := by
  apply splitOnL_cons_nomatch
  simp [nlV, startsWithL]
  intro h
  exact absurd h.symm hc

theorem noNl_cons {c : Char} {s : Str} (h : containsL nlV (c :: s) = false) :
    c ≠ '\n' ∧ containsL nlV s = false := by
  obtain ⟨h1, h2⟩ := contains_cons_false h
  refine ⟨?_, h2⟩
  intro he; subst he
  simp [nlV, startsWithL] at h1

theorem splitNl_append {a : Str} (ha : containsL nlV a = false) (b : Str) :
    splitOnL nlV (a ++ '\n' :: b) = a :: splitOnL nlV b := by
  induction a with
  | nil => simpa using splitNl_newline b
  | cons c cs ih =>
    obtain ⟨hc, hcs⟩ := noNl_cons ha
    rw [List.cons_append, splitNl_cons hc, ih hcs]
    rfl

theorem splitNl_join {ls : List Str} (h : ∀ l ∈ ls, containsL nlV l = false)
    (hne : ls ≠ []) : splitOnL nlV (joinWith nlV ls) = ls := by
  induction ls with
  | nil => exact absurd rfl hne
  | cons x rest ih =>
    cases rest with
    | nil =>
      rw [joinWith]
      exact split_of_not_contains (h x (by simp))
    | cons y t =>
      rw [joinWith]
      have hj : x ++ nlV ++ joinWith nlV (y :: t) = x ++ '\n' :: joinWith nlV (y :: t) := by
        simp [nlV]
      rw [hj, splitNl_append (h x (by simp)) (joinWith nlV (y :: t))]
      rw [ih (fun l hl => h l (by simp [hl])) (by simp)]

theorem joinWith_cons (sep x : Str) {ls : List Str} (h : ls ≠ []) :
    joinWith sep (x :: ls) = x ++ sep ++ joinWith sep ls := by
  cases ls with
  | nil => exact absurd rfl h
  | cons y t => rw [joinWith]

theorem joinWith_append_cons (sep : Str) {xs : List Str} (hne : xs ≠ [])
    (y : Str) (ys : List Str) :
    joinWith sep (xs ++ y :: ys) = joinWith sep xs ++ sep ++ joinWith sep (y :: ys) := by
  induction xs with
  | nil => exact absurd rfl hne
  | cons x rest ih =>
    cases rest with
    | nil => simp [joinWith]
    | cons z t =>
      rw [List.cons_append, List.cons_append, joinWith, joinWith]
      rw [← List.cons_append, ih (by simp)]
      simp [List.append_assoc]

/-! ### The last chunk of a split around an appended separator -/

/-- `sep` has no proper border (no nonempty proper prefix that is also a
suffix): then no occurrence of `sep` can straddle a `++ sep ++` seam. -/
def noBorderB (sep : Str) : Bool :=
  (List.range sep.length).all fun m =>
    m == 0 || List.take m sep != List.drop (sep.length - m) sep

theorem getLastD_irrel {α : Type} {t : List α} (h : t ≠ []) (d d' : α) :
    t.getLastD d = t.getLastD d' := by
  cases t with
  | nil => exact absurd rfl h
  | cons a l => rw [List.getLastD_cons, List.getLastD_cons]

/-- Key lemma: splitting `a ++ sep ++ t` on a borderless `sep` that does
not occur in `t` ends with the chunk `t`, whatever `a` is. -/
theorem split_last_chunk {sep t : Str} (hb : noBorderB sep = true) (hsep : sep ≠ [])
    (ht : containsL sep t = false) :
    ∀ (n : Nat) (a : Str), a.length ≤ n →
      (splitOnL sep (a ++ sep ++ t)).getLastD [] = t := by
  intro n
  induction n with
  | zero =>
    intro a ha
    have haz : a = [] := by cases a with
      | nil => rfl
      | cons c cs => simp at ha
    subst haz
    simp only [List.nil_append]
    cases hsepc : sep with
    | nil => exact absurd hsepc hsep
    | cons s0 ss =>
      rw [hsepc] at ht
      rw [List.cons_append]
      rw [splitOnL_cons_match s0 (ss ++ t) (by simp)
        (by have := startsWith_self_append (s0 :: ss) t; simpa using this)]
      have hd : List.drop ((s0 :: ss).length - 1) (ss ++ t) = t := by
        have h1 : (s0 :: ss).length - 1 = ss.length := by simp
        rw [h1, List.drop_left]
      rw [hd, split_of_not_contains ht]
      simp [List.getLastD_cons]
  | succ m ih =>
    intro a ha
    cases a with
    | nil => exact ih [] (by simp)
    | cons c cs =>
      have hre : (c :: cs) ++ sep ++ t = c :: (cs ++ sep ++ t) := by
        simp [List.append_assoc]
      rw [hre]
      by_cases hs : startsWithL sep (c :: (cs ++ sep ++ t)) = true
      · by_cases hlen : sep.length ≤ cs.length + 1
        · -- match entirely inside `c :: cs`: step and recurse
          rw [splitOnL_cons_match c (cs ++ sep ++ t) hsep hs]
          have hdropeq : List.drop (sep.length - 1) (cs ++ sep ++ t)
              = (List.drop (sep.length - 1) cs) ++ sep ++ t := by
            rw [List.append_assoc, List.drop_append_eq_append_drop]
            have hz : sep.length - 1 - cs.length = 0 := by omega
            rw [hz]
            simp [List.append_assoc]
          rw [hdropeq]
          have hlast := ih (List.drop (sep.length - 1) cs) (by
            have hld := List.length_drop (sep.length - 1) cs
            have hcc : (c :: cs).length = cs.length + 1 := rfl
            omega)
          rw [List.getLastD_cons]
          exact hlast
        · -- the match would straddle the seam: contradicts borderlessness
          exfalso
          have htk := startsWith_take hs
          have hm0 : 0 < sep.length := by cases sep with
            | nil => exact absurd rfl hsep
            | cons s0 ss => simp
          have hlen2 : cs.length + 1 < sep.length := by omega
          rw [show c :: (cs ++ sep ++ t) = (c :: cs) ++ (sep ++ t) by
            simp [List.append_assoc]] at htk
          rw [List.take_append_eq_append_take] at htk
          have hcl : (c :: cs).length = cs.length + 1 := rfl
          have htk2 : List.take sep.length (c :: cs) = c :: cs :=
            List.take_of_length_le (by omega)
          rw [htk2, hcl] at htk
          set m2 := sep.length - (cs.length + 1) with hm2
          have hm2pos : 0 < m2 := by omega
          have hm2lt : m2 < sep.length := by omega
          have htkt : List.take m2 (sep ++ t) = List.take m2 sep := by
            rw [List.take_append_eq_append_take]
            have hz : m2 - sep.length = 0 := by omega
            rw [hz]
            simp
          rw [htkt] at htk
          have hdropsep : List.drop (sep.length - m2) sep = List.take m2 sep := by
            have he : sep.length - m2 = (c :: cs).length := by rw [hcl]; omega
            conv_lhs => rw [he, ← htk]
            rw [List.drop_left]
          have hball := List.all_eq_true.mp hb m2 (List.mem_range.mpr hm2lt)
          simp only [Bool.or_eq_true, beq_iff_eq, bne_iff_ne] at hball
          rcases hball with h0 | hne2
          · omega
          · exact hne2 hdropsep.symm
      · -- no match at this position: skip one character and recurse
        have hs' : startsWithL sep (c :: (cs ++ sep ++ t)) = false := by
          revert hs; cases startsWithL sep (c :: (cs ++ sep ++ t)) <;> simp
        rw [splitOnL_cons_nomatch c (cs ++ sep ++ t) hs']
        have hlast := ih cs (by
          have hcc : (c :: cs).length = cs.length + 1 := rfl
          omega)
        have h2 : 2 ≤ (splitOnL sep (cs ++ sep ++ t)).length :=
          split_length_two (contains_append_sep sep _ t) hsep
        cases hsp : splitOnL sep (cs ++ sep ++ t) with
        | nil => exact absurd hsp (splitOnL_ne_nil _ _)
        | cons h0 hs2 =>
          rw [hsp] at h2 hlast
          cases hs2 with
          | nil => simp at h2
          | cons h1 t2 =>
            simp only [consHead]
            rw [List.getLastD_cons] at hlast
            rw [List.getLastD_cons]
            rw [getLastD_irrel (t := h1 :: t2) (by simp) (c :: h0) h0]
            exact hlast

theorem msep_decomp : msepV = '\n' :: starMsgV := rfl

theorem startsWith_append_false {z : Str}
    (hz : z = [] ∨ ∃ z', z = '\n' :: z') :
    ∀ (h w : Str), containsL nlV w = false → startsWithL w h = false →
      containsL nlV h = false → w ≠ [] → startsWithL w (h ++ z) = false := by
  intro h
  induction h with
  | nil =>
    intro w hw hnw _ hwne
    rcases hz with rfl | ⟨z', rfl⟩
    · cases w with
      | nil => exact absurd rfl hwne
      | cons w0 ws => rfl
    · cases w with
      | nil => exact absurd rfl hwne
      | cons w0 ws =>
        obtain ⟨hw0, _⟩ := noNl_cons hw
        simp [startsWithL]
        intro he
        exact absurd he hw0
  | cons c hs ih =>
    intro w hw hnw hh hwne
    cases w with
    | nil => exact absurd rfl hwne
    | cons w0 ws =>
      rw [List.cons_append, startsWithL]
      rw [startsWithL] at hnw
      by_cases he : (w0 == c) = true
      · rw [he] at hnw ⊢
        simp only [Bool.true_and] at hnw ⊢
        cases ws with
        | nil => simp [startsWithL] at hnw
        | cons v vs =>
          obtain ⟨_, hw'⟩ := noNl_cons hw
          obtain ⟨_, hh'⟩ := noNl_cons hh
          exact ih (v :: vs) hw' hnw hh' (by simp)
      · have : (w0 == c) = false := by revert he; cases (w0 == c) <;> simp
        simp [this]

theorem noNl_no_msep {x : Str} (hx : containsL nlV x = false) :
    containsL msepV x = false := by
  induction x with
  | nil => rfl
  | cons c cs ih =>
    obtain ⟨hc, hcs⟩ := noNl_cons hx
    rw [containsL, ih hcs]
    have : startsWithL msepV (c :: cs) = false := by
      rw [msep_decomp, startsWithL]
      have : ('\n' == c) = false := by
        cases hec : ('\n' == c) with
        | false => rfl
        | true => exact absurd (eq_of_beq hec).symm hc
      simp [this]
    simp [this]

theorem contains_msep_skip {x : Str} (hx : containsL nlV x = false) (r : Str) :
    containsL msepV (x ++ r) = containsL msepV r := by
  induction x with
  | nil => rfl
  | cons c cs ih =>
    obtain ⟨hc, hcs⟩ := noNl_cons hx
    rw [List.cons_append, containsL, ih hcs]
    have : startsWithL msepV (c :: (cs ++ r)) = false := by
      rw [msep_decomp, startsWithL]
      have : ('\n' == c) = false := by
        cases hec : ('\n' == c) with
        | false => rfl
        | true => exact absurd (eq_of_beq hec).symm hc
      simp [this]
    simp [this]

theorem no_msep_in_join : ∀ (ls : List Str),
    (∀ l ∈ ls, containsL nlV l = false) →
    (∀ l ∈ ls, startsWithL starMsgV l = false) →
    containsL msepV (joinWith nlV ls) = false := by
  intro ls
  induction ls with
  | nil => intro _ _; rfl
  | cons x rest ih =>
    intro hn hs
    cases rest with
    | nil =>
      rw [joinWith]
      exact noNl_no_msep (hn x (by simp))
    | cons y t =>
      rw [joinWith]
      have hj : x ++ nlV ++ joinWith nlV (y :: t) = x ++ '\n' :: joinWith nlV (y :: t) := by
        simp [nlV]
      rw [hj, contains_msep_skip (hn x (by simp))]
      rw [containsL]
      have hrest := ih (fun l hl => hn l (by simp [hl])) (fun l hl => hs l (by simp [hl]))
      rw [hrest]
      have hsw : startsWithL msepV ('\n' :: joinWith nlV (y :: t)) = false := by
        rw [msep_decomp, startsWithL]
        simp only [beq_self_eq_true, Bool.true_and]
        cases t with
        | nil =>
          rw [joinWith]
          exact hs y (by simp)
        | cons z zs =>
          rw [joinWith]
          have hj2 : y ++ nlV ++ joinWith nlV (z :: zs) = y ++ '\n' :: joinWith nlV (z :: zs) := by
            simp [nlV]
          rw [hj2]
          exact startsWith_append_false (Or.inr ⟨joinWith nlV (z :: zs), rfl⟩) y starMsgV
            (by decide) (hs y (by simp)) (hn y (by simp)) (by decide)
      simp [hsw]

/-! ### Helper lemmas for the relay resolvers -/

theorem endsWith_append (p x : Str) : endsWithL p (x ++ p) = true := by
  rw [endsWithL, List.reverse_append]
  exact startsWith_self_append p.reverse x.reverse

theorem lstripAt_no_at {s : Str} (h : s.head? ≠ some '@') : lstripAt s = s := by
  cases s with
  | nil => rfl
  | cons c cs =>
    rw [lstripAt, List.dropWhile]
    have hc : (c == '@') = false := by
      cases hc : (c == '@') with
      | false => rfl
      | true => exact absurd (by simp [eq_of_beq hc]) h
    simp [hc]

theorem length_pos_not_isEmpty {l : Str} (h : 0 < l.length) : l.isEmpty = false := by
  cases l with
  | nil => simp at h
  | cons c cs => rfl

theorem autoBodyR_len (o f : Str) : 0 < (autoBodyR o f).length := by
  rw [autoBodyR]
  simp only [List.length_append]
  have h13 : ("Auto-reply: @".toList).length = 13 := by decide
  omega

theorem autoBodyE_len (o f : Str) : 0 < (autoBodyE o f).length := by
  rw [autoBodyE]
  simp only [List.length_append]
  have h13 : ("Auto-reply: @".toList).length = 13 := by decide
  omega

theorem not_isEmpty_of_ne {α : Type} {l : List α} (h : l ≠ []) : l.isEmpty = false := by
  cases l with
  | nil => exact absurd rfl h
  | cons c cs => rfl

theorem append_dashClaude_ne_nil (o : Str) : (o ++ dashClaudeV).isEmpty = false := by
  apply length_pos_not_isEmpty
  rw [List.length_append]
  have : dashClaudeV.length = 7 := by decide
  omega

theorem resolveR_refuse (users : List (Str × SUser)) (fromU owner : Str) (u : SUser)
    (h : lookupA users owner = some u) (h2 : u.wl ≠ [])
    (h3 : u.wl.contains fromU = false) :
    resolveClaudeTargetR users fromU (owner ++ dashClaudeV)
      = (owner ++ dashClaudeV, false, some (autoBodyR owner fromU)) := by
  have hne : ¬(owner ++ dashClaudeV = claudeV) := by
    intro he
    have hl := congrArg List.length he
    rw [List.length_append] at hl
    have h7 : dashClaudeV.length = 7 := by decide
    have h6 : claudeV.length = 6 := by decide
    omega
  have htake : List.take ((owner ++ dashClaudeV).length - 7) (owner ++ dashClaudeV) = owner := by
    have hlen : (owner ++ dashClaudeV).length - 7 = owner.length := by
      rw [List.length_append]
      have h7 : dashClaudeV.length = 7 := by decide
      omega
    rw [hlen, List.take_left]
  rw [resolveClaudeTargetR, if_neg hne, if_pos (endsWith_append dashClaudeV owner)]
  rw [htake]
  simp only [h, not_isEmpty_of_ne h2, h3, Bool.not_false, Bool.and_self, if_pos]

theorem resolveE_refuse (users : List (Str × EUser)) (fromU owner : Str) (u : EUser)
    (h : lookupA users owner = some u) (h2 : u.wl ≠ [])
    (h3 : u.wl.contains fromU = false) :
    resolveClaudeTargetE users fromU (owner ++ dashClaudeV)
      = (owner ++ dashClaudeV, false, some (autoBodyE owner fromU)) := by
  have hne : ¬(owner ++ dashClaudeV = claudeV) := by
    intro he
    have hl := congrArg List.length he
    rw [List.length_append] at hl
    have h7 : dashClaudeV.length = 7 := by decide
    have h6 : claudeV.length = 6 := by decide
    omega
  have htake : List.take ((owner ++ dashClaudeV).length - 7) (owner ++ dashClaudeV) = owner := by
    have hlen : (owner ++ dashClaudeV).length - 7 = owner.length := by
      rw [List.length_append]
      have h7 : dashClaudeV.length = 7 := by decide
      omega
    rw [hlen, List.take_left]
  rw [resolveClaudeTargetE, if_neg hne, if_pos (endsWith_append dashClaudeV owner)]
  rw [htake]
  simp only [h, not_isEmpty_of_ne h2, h3, Bool.not_false, Bool.and_self, if_pos]

theorem routeR_refuse (users : List (Str × SUser)) (fromU toU rt a : Str) (sw : Str)
    (payload : Frame)
    (hres : resolveClaudeTargetR users fromU toU = (rt, false, some a))
    (ha : a.isEmpty = false) :
    routeMessageR users fromU toU payload (some sw)
      = (.autoReplied, [(sw, autoFrame rt a)]) := by
  rw [routeMessageR, hres]
  simp [ha]

theorem routeE_refuse (users : List (Str × EUser)) (fromU toU rt a : Str) (sw : Str)
    (payload : Frame)
    (hres : resolveClaudeTargetE users fromU toU = (rt, false, some a))
    (ha : a.isEmpty = false) :
    routeMessageE users fromU toU payload (some sw)
      = (.autoReplied, [(sw, autoFrame rt a)]) := by
  rw [routeMessageE, hres]
  simp [ha]

/-! ### Claim theorems -/

/-- C1 (code bug): the claim says every status mutation strips all three
status tags before re-adding one, so headers carry at most one of
`:unread:`/`:todo:`/`:done:`.  The agent-driven completion
`send-reply.py:mark_task_done` violates this: on a record whose header
carries `:todo:`, it appends ` :done:` without stripping, leaving the
header with two status tags. -/
theorem c1_mark_task_done_keeps_todo :
    markTaskDone "msg-a".toList "[2025-12-12 Fri 12:00]".toList todoRecContent
      = some ("\n* MESSAGE [2025-12-10 Wed 10:00] :todo: :done:\n:PROPERTIES:\n:ID: msg-a\n:TASK_STATUS: done\n:COMPLETED_AT: [2025-12-12 Fri 12:00]\n:END:\nbody-a\n").toList
    ∧ containsL todoTagV ((splitOnL nlV ((markTaskDone "msg-a".toList
        "[2025-12-12 Fri 12:00]".toList todoRecContent).getD [])).getD 1 []) = true
    ∧ containsL doneTagV ((splitOnL nlV ((markTaskDone "msg-a".toList
        "[2025-12-12 Fri 12:00]".toList todoRecContent).getD [])).getD 1 []) = true := by
  refine ⟨by decide, by decide, by decide⟩

/-- C2 (code bug): the claim says `mark` updates the header of the record
whose properties block holds the given id and no other header.  The
regex of `mark-message.py:mark_message` matches from the leftmost
`* MESSAGE [` header *before* the matching `:ID:` line, so marking
`msg-b` retags the first record's header and leaves `msg-b`'s own header
untouched; `_mark_message_by_id`'s 10-line lookahead window likewise
retags a preceding short record's header in addition to the right one. -/
theorem c2_mark_retags_wrong_record :
    markMessage "msg-b".toList .todo twoRecContent
      = some ("\n* MESSAGE [2025-12-10 Wed 10:00] :todo:\n:PROPERTIES:\n:ID: msg-a\n:FROM: bob\n:END:\nbody-a\n\n* MESSAGE [2025-12-11 Thu 11:00] :unread:\n:PROPERTIES:\n:ID: msg-b\n:FROM: ali\n:END:\nbody-b\n").toList
    ∧ markMessageById "msg-b".toList .todo shortRecContent
      = some ("\n* MESSAGE [2025-12-10 Wed 10:00] :todo:\n:PROPERTIES:\n:ID: msg-a\n:FROM: bob\n:TO: me\n:END:\n\n* MESSAGE [2025-12-11 Thu 11:00] :todo:\n:PROPERTIES:\n:ID: msg-b\n:FROM: ali\n:END:\nbody-b\n").toList := by
  refine ⟨by decide, by decide⟩

/-- C8 (code bug): the claim says `delete(recipient, id)` removes exactly
the record whose properties block contains the id.  The delete regex of
`_on_delete_message` matches from the leftmost header preceding the
`:ID: <id>` occurrence, so deleting the second record of a two-record
file removes both records (the whole file here), destroying the record
that holds `msg-a` even though `msg-b` was requested. -/
theorem c8_delete_removes_preceding_record :
    deleteMessage "msg-b".toList twoRecContent = some []
    ∧ containsL "msg-a".toList ((deleteMessage "msg-b".toList twoRecContent).getD
        "x".toList) = false := by
  refine ⟨by decide, by decide⟩

/-- C4 (counterexample): the claim requires the auto-reply body to be
exactly `Auto-reply: @<owner>-claude is not accepting messages from
@<from_user>.`; the standalone relay appends ` Please contact @<owner>
directly.`, so the refusal of `mallory` by `bob`'s whitelist produces a
different body. -/
theorem c4_standalone_autoreply_body_differs :
    resolveClaudeTargetR [("bob".toList, ⟨"wsB".toList, ["alice".toList]⟩)]
        "mallory".toList "bob-claude".toList
      = ("bob-claude".toList, false, some (autoBodyR "bob".toList "mallory".toList))
    ∧ autoBodyR "bob".toList "mallory".toList ≠ autoBodyE "bob".toList "mallory".toList
    ∧ handleSendR [("bob".toList, ⟨"wsB".toList, ["alice".toList]⟩)]
        "mallory".toList "wsM".toList "bob-claude".toList "hey".toList
        normalV "msg-1".toList 5
      = [("wsM".toList, autoFrame "bob-claude".toList
            (autoBodyR "bob".toList "mallory".toList)),
         ("wsM".toList, ackFrameR "bob-claude".toList "msg-1".toList .autoReplied)] := by
  refine ⟨by decide, by decide, by decide⟩

/-- C5 (counterexample): the claim says a refused route produces exactly
one synthetic frame to the sender and none to the target.  When
`route_message` is called without a sender socket (`sender_ws=None`, the
parameter's default), the refusal branch is skipped and the frame is
delivered to the refused target `bob-claude`, with nothing to the
sender. -/
theorem c5_refusal_without_sender_socket_delivers :
    resolveClaudeTargetR
        [("bob".toList, ⟨"wsB".toList, ["alice".toList]⟩),
         ("bob-claude".toList, ⟨"wsBC".toList, []⟩)]
        "mallory".toList "bob-claude".toList
      = ("bob-claude".toList, false, some (autoBodyR "bob".toList "mallory".toList))
    ∧ routeMessageR
        [("bob".toList, ⟨"wsB".toList, ["alice".toList]⟩),
         ("bob-claude".toList, ⟨"wsBC".toList, []⟩)]
        "mallory".toList "bob-claude".toList [] none
      = (.delivered, [("wsBC".toList, msgFrame "mallory".toList [])]) := by
  refine ⟨by decide, by decide⟩

/-- C6 (counterexample): the claim says parse-after-append preserves the
body with no trimming beyond outer blank lines.  The parser drops every
blank line, so the body `a\n\nb` — which is non-empty and contains no
line beginning `* MESSAGE ` — comes back as `a\nb`. -/
theorem c6_blank_line_not_roundtripped :
    parseAllD (writeToInboxD [] "[2025-12-12 Fri 10:10]".toList "msg-c".toList
        "bob".toList "ali".toList none none "a\n\nb".toList)
      = [⟨"msg-c".toList, "bob".toList, "a\nb".toList, [], true, false, false,
          none, none⟩]
    ∧ ("a\nb".toList : Str) ≠ "a\n\nb".toList := by
  refine ⟨by decide, by decide⟩

/-- C7 (counterexample): the claim says a trailing record lacking its
closing `:END:` yields no record.  Both scanners still yield a record
when the truncated properties block already contains the `:ID:` line:
the id is parsed even though `:END:` never arrives. -/
theorem c7_truncated_block_with_id_yielded :
    parseMessagesW truncatedContent
      = [⟨"msg-t".toList, "?".toList, [], "2025-12-12 Fri 10:10".toList, normalV⟩]
    ∧ getPendingTasks truncatedContent
      = [⟨"msg-t".toList, "?".toList, [], normalV⟩] := by
  refine ⟨by decide, by decide⟩

/-- C9 (counterexample): the claim says every successful auth is answered
with an `auth_ok` frame carrying the username, the online list and the
statuses map.  The standalone relay's `auth_ok` has no `statuses` field
at all. -/
theorem c9_standalone_auth_ok_lacks_statuses :
    (relayAuthS "sec".toList [] "ws1".toList "sec".toList "alice".toList []).2
      = [("ws1".toList, authOkFrameS "alice".toList ["alice".toList])]
    ∧ jget (authOkFrameS "alice".toList ["alice".toList]) "statuses".toList = none := by
  refine ⟨by decide, by decide⟩

/-- C3 (counterexample): the claimed report clause fails on both
dispatch paths.  `task-queue.py next` on a busy inbox prints
`{"status": "busy", "working": <id>}` — the working task's id, not the
claimed (working count, pending count); and on an inbox holding a
working record but no unread pending record the inbox-watcher hook
exits silently without reporting any queue status at all, although the
claim's `whenever` covers that case. -/
theorem c3_busy_report_without_counts :
    cmdNext workingContent none = (.busy "msg-w".toList, workingContent, none)
    ∧ 0 < workingTaskCount workingOnlyContent
    ∧ watcherMain "[x]".toList workingOnlyContent
        = (.noMessages, workingOnlyContent) := by
  refine ⟨by decide, by decide, by decide⟩

/-- C3 (amended): whenever the agent inbox holds a working task,
neither dispatch path selects or marks a new task: `task-queue.py next`
reports busy with the first working task's id and leaves the inbox and
its saved state untouched, and the inbox-watcher hook — when at least
one unread pending message exists — reports the working and pending
counts and returns the inbox content unchanged (with no pending message
it exits silently, as the counterexample records). -/
theorem c3_no_dispatch_while_working (content : Str) (stCur : Option Str) (now : Str) :
    (getWorkingTasks content ≠ [] →
      cmdNext content stCur
        = (.busy ((getWorkingTasks content).headD []), content, stCur))
    ∧ (parseMessagesW content ≠ [] → 0 < workingTaskCount content →
      watcherMain now content
        = (.busyStatus (workingTaskCount content) (parseMessagesW content).length,
            content)) := by
  constructor
  · intro h
    cases hw : getWorkingTasks content with
    | nil => exact absurd hw h
    | cons w ws => rw [cmdNext, hw]; rfl
  · intro h1 h2
    cases hm : parseMessagesW content with
    | nil => exact absurd hm h1
    | cons m ms =>
      rw [watcherMain, hm]
      simp [h2]

/-- Witness for C3 at a concrete inbox holding one working record and one
unread pending record. -/
theorem c3_no_dispatch_while_working_witness :
    cmdNext workingContent none
      = (.busy ((getWorkingTasks workingContent).headD []), workingContent, none)
    ∧ watcherMain "[x]".toList workingContent
      = (.busyStatus (workingTaskCount workingContent)
          (parseMessagesW workingContent).length, workingContent) := by
  have h := c3_no_dispatch_while_working workingContent none "[x]".toList
  exact ⟨h.1 (by decide), h.2 (by decide) (by decide)⟩

theorem takeWhile_append_bracket {ts : Str} (extra : Str)
    (h2 : ∀ c ∈ ts, c ≠ ']') :
    (ts ++ ']' :: extra).takeWhile (fun c => c != ']') = ts := by
  induction ts with
  | nil => simp [List.takeWhile_cons]
  | cons a as ih =>
    rw [List.cons_append, List.takeWhile_cons]
    have ha : (a != ']') = true := by
      simp [bne_iff_ne]
      exact h2 a (by simp)
    rw [ha]
    simp only [if_pos]
    rw [ih (fun c hc => h2 c (by simp [hc]))]

/-- C10 (confirmed): when `mark_message` rewrites a matched header line,
`replace_tags` emits only group 1 (`* MESSAGE [timestamp]`) plus the new
tag (nothing for read/clear); whatever else followed the timestamp on
the header line — including tags outside unread/todo/done — is
discarded, because the cleaned `tags` variable is never interpolated. -/
theorem c10_rewrite_discards_header_extras (ts extra : Str) (act : MarkAct)
    (h1 : ts ≠ []) (h2 : ∀ c ∈ ts, c ≠ ']') :
    rewriteHeader act (hdr11V ++ ts ++ ']' :: extra)
      = hdr11V ++ ts ++ ']' :: tagSuffix act
    ∧ isHeaderRe (hdr11V ++ ts ++ ']' :: extra) = true := by
  have hd : List.drop 11 (hdr11V ++ ts ++ ']' :: extra) = ts ++ ']' :: extra := by
    have h11 : hdr11V.length = 11 := by decide
    rw [List.append_assoc, ← h11, List.drop_left]
  have ht := @takeWhile_append_bracket ts extra h2
  constructor
  · rw [rewriteHeader, hdrStem, hd, ht]
    simp [List.append_assoc]
  · rw [isHeaderRe, hd, ht]
    have hsw : startsWithL hdr11V (hdr11V ++ ts ++ ']' :: extra) = true := by
      rw [List.append_assoc]
      exact startsWith_self_append hdr11V (ts ++ ']' :: extra)
    rw [hsw, not_isEmpty_of_ne h1]
    have hlt : ts.length < (ts ++ ']' :: extra).length := by
      rw [List.length_append]
      simp
    simp [hlt]

/-- Witness for C10 on a header that carries an extra tag `:urgent:` and
stray text after the timestamp. -/
theorem c10_rewrite_discards_header_extras_witness :
    rewriteHeader .todo (hdr11V ++ "2025-12-12 Fri 10:10".toList
        ++ ']' :: " :urgent: misc".toList)
      = hdr11V ++ "2025-12-12 Fri 10:10".toList ++ ']' :: tagSuffix .todo
    ∧ isHeaderRe (hdr11V ++ "2025-12-12 Fri 10:10".toList
        ++ ']' :: " :urgent: misc".toList) = true :=
  c10_rewrite_discards_header_extras "2025-12-12 Fri 10:10".toList
    " :urgent: misc".toList .todo (by decide) (by decide)

/-- C5 (amended): every `route_message` call emits at most one `message`
frame on at most one socket; a refused route with a sender socket
supplied yields exactly one synthetic frame to the sender and none to
the target; with no sender socket the refusal is bypassed and the frame
is delivered to the resolved target if online; an allowed route delivers
one frame to the target when online and none when offline. -/
theorem c5_route_at_most_one_amended (usersR : List (Str × SUser))
    (usersE : List (Str × EUser)) (fromU toU : Str) (payload : Frame)
    (sw : Option Str) :
    ((routeMessageR usersR fromU toU payload sw).2.length ≤ 1
     ∧ (routeMessageE usersE fromU toU payload sw).2.length ≤ 1)
    ∧ (∀ rt, resolveClaudeTargetR usersR fromU toU = (rt, true, none) →
        lookupA usersR rt = none →
        routeMessageR usersR fromU toU payload sw = (.notDelivered, []))
    ∧ (∀ rt u, resolveClaudeTargetR usersR fromU toU = (rt, true, none) →
        lookupA usersR rt = some u →
        routeMessageR usersR fromU toU payload sw
          = (.delivered, [(u.ws, msgFrame fromU payload)]))
    ∧ (∀ rt a s, resolveClaudeTargetR usersR fromU toU = (rt, false, some a) →
        a ≠ [] → sw = some s →
        routeMessageR usersR fromU toU payload sw
          = (.autoReplied, [(s, autoFrame rt a)]))
    ∧ (∀ rt a u, resolveClaudeTargetR usersR fromU toU = (rt, false, some a) →
        sw = none → lookupA usersR rt = some u →
        routeMessageR usersR fromU toU payload sw
          = (.delivered, [(u.ws, msgFrame fromU payload)]))
    ∧ (∀ rt, resolveClaudeTargetE usersE fromU toU = (rt, true, none) →
        lookupA usersE rt = none →
        routeMessageE usersE fromU toU payload sw = (.notDelivered, []))
    ∧ (∀ rt u, resolveClaudeTargetE usersE fromU toU = (rt, true, none) →
        lookupA usersE rt = some u →
        routeMessageE usersE fromU toU payload sw
          = (.delivered, [(u.ws, msgFrame fromU payload)]))
    ∧ (∀ rt a s, resolveClaudeTargetE usersE fromU toU = (rt, false, some a) →
        a ≠ [] → sw = some s →
        routeMessageE usersE fromU toU payload sw
          = (.autoReplied, [(s, autoFrame rt a)]))
    ∧ (∀ rt a u, resolveClaudeTargetE usersE fromU toU = (rt, false, some a) →
        sw = none → lookupA usersE rt = some u →
        routeMessageE usersE fromU toU payload sw
          = (.delivered, [(u.ws, msgFrame fromU payload)])) := by
  refine ⟨⟨?_, ?_⟩, ?_, ?_, ?_, ?_, ?_, ?_, ?_, ?_⟩
  · rw [routeMessageR]
    rcases hres : resolveClaudeTargetR usersR fromU toU with ⟨rt, allowed, ar⟩
    cases sw <;> cases ar <;> dsimp only <;>
      first
        | (split <;> simp)
        | (split <;> first | simp | (split <;> simp))
  · rw [routeMessageE]
    rcases hres : resolveClaudeTargetE usersE fromU toU with ⟨rt, allowed, ar⟩
    cases sw <;> cases ar <;> dsimp only <;>
      first
        | (split <;> simp)
        | (split <;> first | simp | (split <;> simp))
  · intro rt hres hlk
    rw [routeMessageR, hres]
    cases sw <;> simp [hlk]
  · intro rt u hres hlk
    rw [routeMessageR, hres]
    cases sw <;> simp [hlk]
  · intro rt a s hres ha hsw
    subst hsw
    exact routeR_refuse usersR fromU toU rt a s payload hres (not_isEmpty_of_ne ha)
  · intro rt a u hres hsw hlk
    subst hsw
    rw [routeMessageR, hres]
    simp [hlk]
  · intro rt hres hlk
    rw [routeMessageE, hres]
    cases sw <;> simp [hlk]
  · intro rt u hres hlk
    rw [routeMessageE, hres]
    cases sw <;> simp [hlk]
  · intro rt a s hres ha hsw
    subst hsw
    exact routeE_refuse usersE fromU toU rt a s payload hres (not_isEmpty_of_ne ha)
  · intro rt a u hres hsw hlk
    rw [routeMessageE, hres]
    subst hsw
    simp [hlk]

/-- Witness for C5: a refused route with the sender socket supplied
yields exactly the one synthetic frame to the sender. -/
theorem c5_route_at_most_one_amended_witness :
    routeMessageR [("bob".toList, ⟨"wsB".toList, ["alice".toList]⟩)]
        "mallory".toList "bob-claude".toList [] (some "wsM".toList)
      = (.autoReplied, [("wsM".toList,
          autoFrame "bob-claude".toList (autoBodyR "bob".toList "mallory".toList))]) :=
  (c5_route_at_most_one_amended [("bob".toList, ⟨"wsB".toList, ["alice".toList]⟩)]
      ([] : List (Str × EUser)) "mallory".toList "bob-claude".toList []
      (some "wsM".toList)).2.2.2.1
    "bob-claude".toList (autoBodyR "bob".toList "mallory".toList) "wsM".toList
    (by decide) (by decide) rfl

/-- C4 (amended): a send to `<owner>-claude` while the owner's live
session has a non-empty whitelist excluding the sender is refused by
both relays: one synthetic auto-reply `message` frame from
`<owner>-claude` goes back to the sender, followed by a `send_ack` with
`delivered=false, auto_replied=true`.  The embedded relay's auto-reply
body is exactly the one the claim states; the standalone relay appends
` Please contact @<owner> directly.` to it. -/
theorem c4_whitelist_refusal_amended (owner fromU text prio midv : Str) (ts : Nat)
    (usersR : List (Str × SUser)) (usersE : List (Str × EUser))
    (uR : SUser) (uE : EUser) (swR swE : Str) (thr rto : Option Str)
    (hR : lookupA usersR owner = some uR) (hRwl : uR.wl ≠ [])
    (hRni : uR.wl.contains fromU = false)
    (hE : lookupA usersE owner = some uE) (hEwl : uE.wl ≠ [])
    (hEni : uE.wl.contains fromU = false)
    (hat : (owner ++ dashClaudeV).head? ≠ some '@')
    (htxt : text ≠ []) :
    handleSendR usersR fromU swR (owner ++ dashClaudeV) text prio midv ts
      = [(swR, autoFrame (owner ++ dashClaudeV) (autoBodyR owner fromU)),
         (swR, ackFrameR (owner ++ dashClaudeV) midv .autoReplied)]
    ∧ handleSendE usersE fromU swE (owner ++ dashClaudeV) text prio midv ts thr rto
      = [(swE, autoFrame (owner ++ dashClaudeV) (autoBodyE owner fromU)),
         (swE, ackFrameE (owner ++ dashClaudeV) .autoReplied)]
    ∧ jget (ackFrameR (owner ++ dashClaudeV) midv .autoReplied) "delivered".toList
        = some (.b false)
    ∧ jget (ackFrameR (owner ++ dashClaudeV) midv .autoReplied) "auto_replied".toList
        = some (.b true)
    ∧ jget (ackFrameE (owner ++ dashClaudeV) .autoReplied) "delivered".toList
        = some (.b false)
    ∧ jget (ackFrameE (owner ++ dashClaudeV) .autoReplied) "auto_replied".toList
        = some (.b true) := by
  have hnonempty : ((owner ++ dashClaudeV).isEmpty || text.isEmpty) = false := by
    rw [append_dashClaude_ne_nil, not_isEmpty_of_ne htxt]
    rfl
  refine ⟨?_, ?_, rfl, rfl, rfl, rfl⟩
  · rw [handleSendR, lstripAt_no_at hat]
    rw [if_neg (by simp [hnonempty])]
    rw [resolveR_refuse usersR fromU owner uR hR hRwl hRni]
    rw [routeR_refuse usersR fromU (owner ++ dashClaudeV) (owner ++ dashClaudeV)
      (autoBodyR owner fromU) swR _
      (resolveR_refuse usersR fromU owner uR hR hRwl hRni)
      (length_pos_not_isEmpty (autoBodyR_len owner fromU))]
    rfl
  · rw [handleSendE, lstripAt_no_at hat]
    rw [if_neg (by simp [hnonempty])]
    rw [resolveE_refuse usersE fromU owner uE hE hEwl hEni]
    rw [routeE_refuse usersE fromU (owner ++ dashClaudeV) (owner ++ dashClaudeV)
      (autoBodyE owner fromU) swE _
      (resolveE_refuse usersE fromU owner uE hE hEwl hEni)
      (length_pos_not_isEmpty (autoBodyE_len owner fromU))]
    rfl

/-- Witness for C4 with owner `bob`, whitelist `[alice]`, sender
`mallory`, on both relays. -/
theorem c4_whitelist_refusal_amended_witness :
    handleSendR [("bob".toList, ⟨"wsB".toList, ["alice".toList]⟩)]
        "mallory".toList "wsM".toList ("bob".toList ++ dashClaudeV) "hey".toList
        normalV "msg-1".toList 5
      = [("wsM".toList, autoFrame ("bob".toList ++ dashClaudeV)
            (autoBodyR "bob".toList "mallory".toList)),
         ("wsM".toList, ackFrameR ("bob".toList ++ dashClaudeV)
            "msg-1".toList .autoReplied)]
    ∧ handleSendE [("bob".toList, ⟨"wsB2".toList, ["alice".toList], "online".toList⟩)]
        "mallory".toList "wsM2".toList ("bob".toList ++ dashClaudeV) "hey".toList
        normalV "msg-1".toList 5 none none
      = [("wsM2".toList, autoFrame ("bob".toList ++ dashClaudeV)
            (autoBodyE "bob".toList "mallory".toList)),
         ("wsM2".toList, ackFrameE ("bob".toList ++ dashClaudeV) .autoReplied)] := by
  have h := c4_whitelist_refusal_amended "bob".toList "mallory".toList "hey".toList
    normalV "msg-1".toList 5
    [("bob".toList, ⟨"wsB".toList, ["alice".toList]⟩)]
    [("bob".toList, ⟨"wsB2".toList, ["alice".toList], "online".toList⟩)]
    ⟨"wsB".toList, ["alice".toList]⟩ ⟨"wsB2".toList, ["alice".toList], "online".toList⟩
    "wsM".toList "wsM2".toList none none
    (by decide) (by decide) (by decide) (by decide) (by decide) (by decide)
    (by decide) (by decide)
  exact ⟨h.1, h.2.1⟩

theorem mem_updAssoc {α : Type} {l : List (Str × α)} {k : Str} {v : α}
    {p : Str × α} (h : p ∈ updAssoc l k v) : p = (k, v) ∨ p ∈ l := by
  induction l with
  | nil => simp [updAssoc] at h; simp [h]
  | cons q rest ih =>
    rw [updAssoc] at h
    by_cases he : q.1 = k
    · rw [if_pos he] at h
      rcases List.mem_cons.mp h with h1 | h2
      · exact Or.inl h1
      · exact Or.inr (List.mem_cons_of_mem q h2)
    · rw [if_neg he] at h
      rcases List.mem_cons.mp h with h1 | h2
      · exact Or.inr (by simp [h1])
      · rcases ih h2 with ha | hb
        · exact Or.inl ha
        · exact Or.inr (List.mem_cons_of_mem q hb)

/-- C9 (amended): on successful auth the embedded relay replies first —
before any other frame reaches that connection — with an `auth_ok`
carrying the username, the online list and the statuses map; the later
presence broadcast goes only to other sockets.  The standalone relay's
`auth_ok` carries the username and online list but no statuses map. -/
theorem c9_auth_ok_amended (secret : Str) (users : List (Str × EUser))
    (ws dUser : Str) (dWl : List Str) (dStatus : Option Str)
    (hu : dUser ≠ [])
    (hws : ∀ p ∈ users, (Prod.snd p).ws ≠ ws) :
    (relayAuthE secret users ws secret dUser dWl dStatus).2
      = (ws, authOkFrameE dUser
          ((updAssoc users dUser ⟨ws, dWl, dStatus.getD "online".toList⟩).map Prod.fst)
          ((updAssoc users dUser ⟨ws, dWl, dStatus.getD "online".toList⟩).map
            (fun q => (q.1, q.2.status))))
        :: bcastE (updAssoc users dUser ⟨ws, dWl, dStatus.getD "online".toList⟩)
             dUser (dStatus.getD "online".toList)
    ∧ jget (authOkFrameE dUser
          ((updAssoc users dUser ⟨ws, dWl, dStatus.getD "online".toList⟩).map Prod.fst)
          ((updAssoc users dUser ⟨ws, dWl, dStatus.getD "online".toList⟩).map
            (fun q => (q.1, q.2.status)))) "statuses".toList
        = some (.smap ((updAssoc users dUser
            ⟨ws, dWl, dStatus.getD "online".toList⟩).map (fun q => (q.1, q.2.status))))
    ∧ ∀ q ∈ bcastE (updAssoc users dUser ⟨ws, dWl, dStatus.getD "online".toList⟩)
        dUser (dStatus.getD "online".toList), q.1 ≠ ws := by
  refine ⟨?_, rfl, ?_⟩
  · rw [relayAuthE, if_neg (fun h => h rfl)]
    rw [if_neg (by rw [not_isEmpty_of_ne hu]; simp)]
  · intro q hq
    rw [bcastE] at hq
    rcases List.mem_map.mp hq with ⟨p, hpf, hqe⟩
    rcases List.mem_filter.mp hpf with ⟨hpmem, hpne⟩
    rcases mem_updAssoc hpmem with h1 | h2
    · exfalso
      rw [h1] at hpne
      simp at hpne
    · rw [← hqe]
      exact hws p h2

/-- Witness for C9 on a relay with one prior user `carol` on another
socket. -/
theorem c9_auth_ok_amended_witness :
    (relayAuthE "sec".toList
        [("carol".toList, (⟨"wsC".toList, [], "busy".toList⟩ : EUser))]
        "ws1".toList "sec".toList "alice".toList [] none).2
      = ("ws1".toList, authOkFrameE "alice".toList
          ((updAssoc [("carol".toList, (⟨"wsC".toList, [], "busy".toList⟩ : EUser))]
              "alice".toList (⟨"ws1".toList, [], (none : Option Str).getD "online".toList⟩ : EUser)).map Prod.fst)
          ((updAssoc [("carol".toList, (⟨"wsC".toList, [], "busy".toList⟩ : EUser))]
              "alice".toList (⟨"ws1".toList, [], (none : Option Str).getD "online".toList⟩ : EUser)).map
            (fun q => (q.1, q.2.status))))
        :: bcastE (updAssoc [("carol".toList, (⟨"wsC".toList, [], "busy".toList⟩ : EUser))]
              "alice".toList (⟨"ws1".toList, [], (none : Option Str).getD "online".toList⟩ : EUser))
             "alice".toList ((none : Option Str).getD "online".toList) := by
  have h := c9_auth_ok_amended "sec".toList
    [("carol".toList, (⟨"wsC".toList, [], "busy".toList⟩ : EUser))]
    "ws1".toList "alice".toList [] none (by decide) (by decide)
  exact h.1

/-! ### C7: a block with no id property yields no record -/

theorem dget_dset_ne {k q : Str} (hne : k ≠ q) (v : Str)
    (ps : List (Str × Str)) : dget (dset k v ps) q = dget ps q := by
  induction ps with
  | nil =>
    rw [dset]
    simp only [dget]
    rw [if_neg hne]
  | cons p rest ih =>
    rcases p with ⟨pk, pv⟩
    rw [dset]
    by_cases he : pk = k
    · have hqf : ¬pk = q := fun hq => hne (by rw [← he, hq])
      rw [if_pos he, dget, dget, if_neg hne, if_neg hqf]
    · rw [if_neg he, dget, dget]
      by_cases hq : pk = q
      · rw [if_pos hq, if_pos hq]
      · rw [if_neg hq, if_neg hq, ih]

/-- A line whose `propKeyW` is not `some k` leaves the `k` entry of the
props dict of `stepW` unchanged. -/
theorem stepW_key_preserve (st : PSt) (l : Str) (k : Str)
    (h : propKeyW l ≠ some k) : dget (stepW st l).props k = dget st.props k := by
  rw [propKeyW] at h
  rw [stepW]
  by_cases h1 : containsL pstrV l = true
  · rw [if_pos h1]
  · rw [if_neg h1] at h ⊢
    by_cases h2 : containsL estrV l = true
    · rw [if_pos h2]
    · rw [if_neg h2] at h ⊢
      by_cases h3 : containsL cospV l = true
      · rw [if_pos h3] at h
        by_cases h4 : (st.inProps && containsL cospV l) = true
        · rw [if_pos h4]
          by_cases h5 : (startsWithL [':'] (trimL l)
              && containsL cospV (List.drop 1 (trimL l))) = true
          · rw [if_pos h5] at h ⊢
            cases hsp : splitOnce cospV (List.drop 1 (trimL l)) with
            | none => rfl
            | some kv =>
              rcases kv with ⟨k0, v0⟩
              have hkne : toLowerL k0 ≠ k := fun he =>
                h (by rw [hsp]; exact congrArg some he)
              exact dget_dset_ne hkne v0 st.props
          · rw [if_neg h5]
        · rw [if_neg h4]
          by_cases h6 : (!st.inProps && !(trimL l).isEmpty) = true
          · rw [if_pos h6]
          · rw [if_neg h6]
      · by_cases h4 : (st.inProps && containsL cospV l) = true
        · exact absurd (Bool.and_eq_true_iff.mp h4).2 h3
        · rw [if_neg h4]
          by_cases h6 : (!st.inProps && !(trimL l).isEmpty) = true
          · rw [if_pos h6]
          · rw [if_neg h6]

theorem foldW_key_preserve (k : Str) : ∀ (lines : List Str) (st : PSt),
    (∀ l ∈ lines, propKeyW l ≠ some k) →
    dget (List.foldl stepW st lines).props k = dget st.props k := by
  intro lines
  induction lines with
  | nil => intro st _; rfl
  | cons l rest ih =>
    intro st h
    rw [List.foldl_cons]
    rw [ih (stepW st l) (fun x hx => h x (by simp [hx]))]
    exact stepW_key_preserve st l k (h l (by simp))

/-- C7 (amended): a trailing record whose properties block was cut off
before contributing an `id` property yields no record from either
scanner; only a truncated block that already contains its `:ID:` line is
still yielded.  Formally: a block none of whose lines carries an `id`
property parses to nothing. -/
theorem c7_no_id_block_absent (b : Str)
    (h : ∀ l ∈ (splitOnL nlV b).drop 1, propKeyW l ≠ some idKeyV) :
    blockMsgW b = none ∧ blockTaskQ b = none := by
  have hid : dget (List.foldl stepW ⟨[], [], false⟩ ((splitOnL nlV b).drop 1)).props idKeyV
      = none := by
    rw [foldW_key_preserve idKeyV ((splitOnL nlV b).drop 1) ⟨[], [], false⟩ h]
    rfl
  have hid2 : dget (List.foldl stepW ⟨[], [], false⟩ ((splitOnL nlV b).tail)).props idKeyV
      = none := by
    rw [← List.drop_one]
    exact hid
  constructor
  · by_cases hu : containsL unreadTagV ((splitOnL nlV b).head?.getD []) = true
    · simp [blockMsgW, hu, hid2, dgetD]
    · simp [blockMsgW, hu]
  · by_cases hu : containsL unreadTagV ((splitOnL nlV b).head?.getD []) = true
    · simp [blockTaskQ, hu, hid2, dgetD]
    · simp [blockTaskQ, hu]

/-- Witness for C7's amended theorem: a trailing block cut off right
after `:PROPERTIES:` yields no record. -/
theorem c7_no_id_block_absent_witness :
    blockMsgW "[2025-12-12 Fri 10:10] :unread:\n:PROPERTIES:\n:TASK".toList = none
    ∧ blockTaskQ "[2025-12-12 Fri 10:10] :unread:\n:PROPERTIES:\n:TASK".toList = none :=
  c7_no_id_block_absent "[2025-12-12 Fri 10:10] :unread:\n:PROPERTIES:\n:TASK".toList
    (by decide)

/-! ### C6: machinery for the round-trip theorem -/

theorem noNl_append {a b : Str} (ha : containsL nlV a = false)
    (hb : containsL nlV b = false) : containsL nlV (a ++ b) = false := by
  induction a with
  | nil => exact hb
  | cons c cs ih =>
    obtain ⟨hc, hcs⟩ := noNl_cons ha
    rw [List.cons_append, containsL, ih hcs]
    have hsw : startsWithL nlV (c :: (cs ++ b)) = false := by
      rw [nlV, startsWithL]
      have : ('\n' == c) = false := by
        cases hec : ('\n' == c) with
        | false => rfl
        | true => exact absurd (eq_of_beq hec).symm hc
      simp [this]
    simp [hsw]

theorem getLastD_map {α β : Type} (f : α → β) (d : β) (d' : α) :
    ∀ l : List α, l ≠ [] → (l.map f).getLastD d = f (l.getLastD d') := by
  intro l
  induction l with
  | nil => intro h; exact absurd rfl h
  | cons a rest ih =>
    intro _
    cases rest with
    | nil => simp [List.getLastD_cons]
    | cons b t =>
      rw [List.map_cons, List.getLastD_cons, List.getLastD_cons]
      rw [getLastD_irrel (t := List.map f (b :: t)) (by simp) (f a) d]
      rw [ih (by simp)]
      rw [getLastD_irrel (t := b :: t) (by simp) d' a]

theorem getLastD_drop1 {α : Type} (d : α) (l : List α) (h : 2 ≤ l.length) :
    (l.drop 1).getLastD d = l.getLastD d := by
  cases l with
  | nil => simp at h
  | cons a rest =>
    cases rest with
    | nil => simp at h
    | cons b t =>
      show (b :: t).getLastD d = (a :: b :: t).getLastD d
      have h1 : (a :: b :: t).getLastD d = (b :: t).getLastD a :=
        List.getLastD_cons d a (b :: t)
      rw [h1]
      exact getLastD_irrel (by simp) d a

theorem drop1_ne_nil {α : Type} {l : List α} (h : 2 ≤ l.length) : l.drop 1 ≠ [] := by
  cases l with
  | nil => simp at h
  | cons a rest =>
    cases rest with
    | nil => simp at h
    | cons b t => simp

theorem stepD_pstr (st : PSt) : stepD st pstrV = { st with inProps := true } := by
  have h : containsL pstrV pstrV = true := by decide
  rw [stepD, if_pos h]

theorem stepD_estr (st : PSt) : stepD st estrV = { st with inProps := false } := by
  have h1 : containsL pstrV estrV = false := by decide
  have h2 : containsL estrV estrV = true := by decide
  rw [stepD, if_neg (by rw [h1]; simp), if_pos h2]

theorem stepD_prop (st : PSt) (hst : st.inProps = true) (key v l : Str)
    (hl : l = (':' :: key) ++ cospV ++ v)
    (hp : containsL pstrV l = false) (he : containsL estrV l = false)
    (htr : trimL l = l)
    (hsp : splitOnce cospV (List.drop 1 l) = some (key, v)) :
    stepD st l = { st with props := dset (toLowerL key) v st.props } := by
  have hc : containsL cospV l = true := by
    rw [hl]; exact contains_append_sep cospV (':' :: key) v
  have hsw : startsWithL [':'] (trimL l) = true := by
    rw [htr, hl]
    rfl
  rw [stepD, if_neg (by rw [hp]; simp), if_neg (by rw [he]; simp),
    if_pos (by rw [hst, hc]; rfl), if_pos hsw, htr, hsp]

theorem stepD_body (st : PSt) (hst : st.inProps = false) (l : Str)
    (hp : containsL pstrV l = false) (he : containsL estrV l = false)
    (htr : trimL l ≠ []) :
    stepD st l = { st with texts := st.texts ++ [l] } := by
  rw [stepD, if_neg (by rw [hp]; simp), if_neg (by rw [he]; simp),
    if_neg (by rw [hst]; simp), if_pos (by rw [hst, not_isEmpty_of_ne htr]; rfl)]

theorem stepD_blank (st : PSt) : stepD st [] = st := by
  have h1 : containsL pstrV ([] : Str) = false := by decide
  have h2 : containsL estrV ([] : Str) = false := by decide
  have h3 : containsL cospV ([] : Str) = false := by decide
  rw [stepD, if_neg (by rw [h1]; simp), if_neg (by rw [h2]; simp),
    if_neg (by rw [h3]; simp), if_neg (by simp [trimL, trimLeftL, trimRightL])]

theorem foldD_body : ∀ (bls : List Str) (st : PSt), st.inProps = false →
    (∀ l ∈ bls, containsL pstrV l = false ∧ containsL estrV l = false ∧ trimL l ≠ []) →
    List.foldl stepD st bls = { st with texts := st.texts ++ bls } := by
  intro bls
  induction bls with
  | nil => intro st _ _; simp
  | cons l rest ih =>
    intro st hst h
    rw [List.foldl_cons]
    obtain ⟨hp, he, htr⟩ := h l (by simp)
    rw [stepD_body st hst l hp he htr]
    rw [ih _ (by exact hst) (fun x hx => h x (by simp [hx]))]
    simp

/-- The record text written by `_write_to_inbox`, decomposed into the
line list it consists of (separator in front). -/
theorem entry_as_join (ts mid frm toU : Str) (thr rto : Option Str)
    (bodyLines : List Str) (hb : bodyLines ≠ []) :
    writeEntryD ts mid frm toU thr rto (joinWith nlV bodyLines)
      = msepV ++ joinWith nlV ((ts ++ " :unread:".toList) :: pstrV ::
          (entryProps mid frm toU thr rto ++ estrV :: (bodyLines ++ [[]]))) := by
  have hpne : entryProps mid frm toU thr rto ≠ [] := by
    rw [entryProps]
    simp
  have hbne : bodyLines ++ [([] : Str)] ≠ [] := by simp
  rw [joinWith_cons nlV _ (by simp), joinWith_cons nlV _ (by simp)]
  rw [joinWith_append_cons nlV hpne estrV (bodyLines ++ [[]])]
  rw [joinWith_cons nlV estrV hbne]
  rw [joinWith_append_cons nlV hb ([] : Str) ([] : List Str)]
  rw [show joinWith nlV [([] : Str)] = [] from rfl]
  rw [writeEntryD]
  rw [show "\n* MESSAGE ".toList = msepV from rfl]
  rw [show " :unread:\n:PROPERTIES:\n".toList
    = " :unread:".toList ++ nlV ++ (pstrV ++ nlV) from rfl]
  rw [show "\n:END:\n".toList = nlV ++ (estrV ++ nlV) from rfl]
  simp [List.append_assoc]

theorem foldD_propLines : ∀ (pls : List (Str × Str × Str))
    (props0 : List (Str × Str)) (texts0 : List Str),
    (∀ p ∈ pls, propLineOK p.1 p.2.1 p.2.2) →
    List.foldl stepD ⟨props0, texts0, true⟩ (pls.map (fun p => p.2.2))
      = ⟨List.foldl (fun d p => dset (toLowerL p.1) p.2.1 d) props0 pls, texts0, true⟩ := by
  intro pls
  induction pls with
  | nil => intro props0 texts0 _; rfl
  | cons p rest ih =>
    intro props0 texts0 hall
    obtain ⟨hl, hp, he, htr, hsp⟩ := hall p (by simp)
    calc List.foldl stepD ⟨props0, texts0, true⟩ ((p :: rest).map (fun q => q.2.2))
        = List.foldl stepD (stepD ⟨props0, texts0, true⟩ p.2.2)
            (rest.map (fun q => q.2.2)) := by rw [List.map_cons, List.foldl_cons]
      _ = List.foldl stepD ⟨dset (toLowerL p.1) p.2.1 props0, texts0, true⟩
            (rest.map (fun q => q.2.2)) := by
            rw [stepD_prop ⟨props0, texts0, true⟩ rfl p.1 p.2.1 p.2.2 hl hp he htr hsp]
      _ = ⟨List.foldl (fun d q => dset (toLowerL q.1) q.2.1 d)
            (dset (toLowerL p.1) p.2.1 props0) rest, texts0, true⟩ :=
            ih (dset (toLowerL p.1) p.2.1 props0) texts0 (fun q hq => hall q (by simp [hq]))
      _ = ⟨List.foldl (fun d q => dset (toLowerL q.1) q.2.1 d) props0 (p :: rest),
            texts0, true⟩ := by rw [List.foldl_cons]

theorem foldD_entryProps (props0 : List (Str × Str)) (texts0 : List Str)
    (mid frm toU : Str) (thr rto : Option Str)
    (hthr : thr ≠ some []) (hrto : rto ≠ some [])
    (hprops : ∀ l ∈ entryProps mid frm toU thr rto,
      containsL pstrV l = false ∧ containsL estrV l = false ∧ trimL l = l) :
    List.foldl stepD ⟨props0, texts0, true⟩ (entryProps mid frm toU thr rto)
      = ⟨entryDict mid frm toU thr rto props0, texts0, true⟩ := by
  have hL1 := hprops (":ID: ".toList ++ mid) (by rw [entryProps]; simp)
  have hL2 := hprops (":FROM: ".toList ++ frm) (by rw [entryProps]; simp)
  have hL3 := hprops (":TO: ".toList ++ toU) (by rw [entryProps]; simp)
  rcases thr with _ | t
  · rcases rto with _ | r
    · have he1 : entryProps mid frm toU none none
          = ([(("ID".toList, mid, ":ID: ".toList ++ mid) : Str × Str × Str),
              ("FROM".toList, frm, ":FROM: ".toList ++ frm),
              ("TO".toList, toU, ":TO: ".toList ++ toU)]).map (fun p => p.2.2) := by
        rw [entryProps]
        simp [optPropLine]
      rw [he1, foldD_propLines _ props0 texts0 (by
        intro p hp
        simp only [List.mem_cons, List.not_mem_nil, or_false] at hp
        rcases hp with rfl | rfl | rfl
        · exact ⟨rfl, hL1.1, hL1.2.1, hL1.2.2, rfl⟩
        · exact ⟨rfl, hL2.1, hL2.2.1, hL2.2.2, rfl⟩
        · exact ⟨rfl, hL3.1, hL3.2.1, hL3.2.2, rfl⟩)]
      rw [entryDict, entryDictT]
      rfl
    · have hrne : r ≠ [] := fun he => hrto (by rw [he])
      have hL5 := hprops (":REPLY_TO: ".toList ++ r)
        (by rw [entryProps]; simp [optPropLine, not_isEmpty_of_ne hrne])
      have he1 : entryProps mid frm toU none (some r)
          = ([(("ID".toList, mid, ":ID: ".toList ++ mid) : Str × Str × Str),
              ("FROM".toList, frm, ":FROM: ".toList ++ frm),
              ("TO".toList, toU, ":TO: ".toList ++ toU),
              ("REPLY_TO".toList, r, ":REPLY_TO: ".toList ++ r)]).map (fun p => p.2.2) := by
        rw [entryProps]
        simp [optPropLine, not_isEmpty_of_ne hrne]
      rw [he1, foldD_propLines _ props0 texts0 (by
        intro p hp
        simp only [List.mem_cons, List.not_mem_nil, or_false] at hp
        rcases hp with rfl | rfl | rfl | rfl
        · exact ⟨rfl, hL1.1, hL1.2.1, hL1.2.2, rfl⟩
        · exact ⟨rfl, hL2.1, hL2.2.1, hL2.2.2, rfl⟩
        · exact ⟨rfl, hL3.1, hL3.2.1, hL3.2.2, rfl⟩
        · exact ⟨rfl, hL5.1, hL5.2.1, hL5.2.2, rfl⟩)]
      rw [entryDict, entryDictT, if_neg (by rw [not_isEmpty_of_ne hrne]; simp)]
      rfl
  · have htne : t ≠ [] := fun he => hthr (by rw [he])
    have hL4 := hprops (":THREAD: ".toList ++ t)
      (by rw [entryProps]; simp [optPropLine, not_isEmpty_of_ne htne])
    rcases rto with _ | r
    · have he1 : entryProps mid frm toU (some t) none
          = ([(("ID".toList, mid, ":ID: ".toList ++ mid) : Str × Str × Str),
              ("FROM".toList, frm, ":FROM: ".toList ++ frm),
              ("TO".toList, toU, ":TO: ".toList ++ toU),
              ("THREAD".toList, t, ":THREAD: ".toList ++ t)]).map (fun p => p.2.2) := by
        rw [entryProps]
        simp [optPropLine, not_isEmpty_of_ne htne]
      rw [he1, foldD_propLines _ props0 texts0 (by
        intro p hp
        simp only [List.mem_cons, List.not_mem_nil, or_false] at hp
        rcases hp with rfl | rfl | rfl | rfl
        · exact ⟨rfl, hL1.1, hL1.2.1, hL1.2.2, rfl⟩
        · exact ⟨rfl, hL2.1, hL2.2.1, hL2.2.2, rfl⟩
        · exact ⟨rfl, hL3.1, hL3.2.1, hL3.2.2, rfl⟩
        · exact ⟨rfl, hL4.1, hL4.2.1, hL4.2.2, rfl⟩)]
      rw [entryDict, entryDictT, if_neg (by rw [not_isEmpty_of_ne htne]; simp)]
      rfl
    · have hrne : r ≠ [] := fun he => hrto (by rw [he])
      have hL5 := hprops (":REPLY_TO: ".toList ++ r)
        (by rw [entryProps]; simp [optPropLine, not_isEmpty_of_ne htne, not_isEmpty_of_ne hrne])
      have he1 : entryProps mid frm toU (some t) (some r)
          = ([(("ID".toList, mid, ":ID: ".toList ++ mid) : Str × Str × Str),
              ("FROM".toList, frm, ":FROM: ".toList ++ frm),
              ("TO".toList, toU, ":TO: ".toList ++ toU),
              ("THREAD".toList, t, ":THREAD: ".toList ++ t),
              ("REPLY_TO".toList, r, ":REPLY_TO: ".toList ++ r)]).map (fun p => p.2.2) := by
        rw [entryProps]
        simp [optPropLine, not_isEmpty_of_ne htne, not_isEmpty_of_ne hrne]
      rw [he1, foldD_propLines _ props0 texts0 (by
        intro p hp
        simp only [List.mem_cons, List.not_mem_nil, or_false] at hp
        rcases hp with rfl | rfl | rfl | rfl | rfl
        · exact ⟨rfl, hL1.1, hL1.2.1, hL1.2.2, rfl⟩
        · exact ⟨rfl, hL2.1, hL2.2.1, hL2.2.2, rfl⟩
        · exact ⟨rfl, hL3.1, hL3.2.1, hL3.2.2, rfl⟩
        · exact ⟨rfl, hL4.1, hL4.2.1, hL4.2.2, rfl⟩
        · exact ⟨rfl, hL5.1, hL5.2.1, hL5.2.2, rfl⟩)]
      rw [entryDict, entryDictT, if_neg (by rw [not_isEmpty_of_ne hrne]; simp),
        if_neg (by rw [not_isEmpty_of_ne htne]; simp)]
      rfl

theorem entryDict_id (mid frm toU : Str) (thr rto : Option Str)
    (hthr : thr ≠ some []) (hrto : rto ≠ some []) :
    dgetD (entryDict mid frm toU thr rto []) idKeyV [] = mid := by
  rcases thr with _ | t <;> rcases rto with _ | r <;>
    rw [entryDict, entryDictT] <;>
    first
      | rfl
      | (have htne : t ≠ [] := fun he => hthr (by rw [he])
         rw [if_neg (by rw [not_isEmpty_of_ne htne]; simp)]
         rfl)
      | (have hrne : r ≠ [] := fun he => hrto (by rw [he])
         rw [if_neg (by rw [not_isEmpty_of_ne hrne]; simp)]
         first
           | rfl
           | (have htne : t ≠ [] := fun he => hthr (by rw [he])
              rw [if_neg (by rw [not_isEmpty_of_ne htne]; simp)]
              rfl))

theorem entryDict_from (mid frm toU : Str) (thr rto : Option Str)
    (hthr : thr ≠ some []) (hrto : rto ≠ some []) :
    dgetD (entryDict mid frm toU thr rto []) fromKeyV qmarkV = frm := by
  rcases thr with _ | t <;> rcases rto with _ | r <;>
    rw [entryDict, entryDictT] <;>
    first
      | rfl
      | (have htne : t ≠ [] := fun he => hthr (by rw [he])
         rw [if_neg (by rw [not_isEmpty_of_ne htne]; simp)]
         rfl)
      | (have hrne : r ≠ [] := fun he => hrto (by rw [he])
         rw [if_neg (by rw [not_isEmpty_of_ne hrne]; simp)]
         first
           | rfl
           | (have htne : t ≠ [] := fun he => hthr (by rw [he])
              rw [if_neg (by rw [not_isEmpty_of_ne htne]; simp)]
              rfl))

theorem entryDict_thread (mid frm toU : Str) (thr rto : Option Str)
    (hthr : thr ≠ some []) (hrto : rto ≠ some []) :
    dget (entryDict mid frm toU thr rto []) threadKeyV = thr := by
  rcases thr with _ | t <;> rcases rto with _ | r <;>
    rw [entryDict, entryDictT] <;>
    first
      | rfl
      | (have htne : t ≠ [] := fun he => hthr (by rw [he])
         rw [if_neg (by rw [not_isEmpty_of_ne htne]; simp)]
         rfl)
      | (have hrne : r ≠ [] := fun he => hrto (by rw [he])
         rw [if_neg (by rw [not_isEmpty_of_ne hrne]; simp)]
         first
           | rfl
           | (have htne : t ≠ [] := fun he => hthr (by rw [he])
              rw [if_neg (by rw [not_isEmpty_of_ne htne]; simp)]
              rfl))

theorem entryDict_replyto (mid frm toU : Str) (thr rto : Option Str)
    (hthr : thr ≠ some []) (hrto : rto ≠ some []) :
    dget (entryDict mid frm toU thr rto []) replyToKeyV = rto := by
  rcases thr with _ | t <;> rcases rto with _ | r <;>
    rw [entryDict, entryDictT] <;>
    first
      | rfl
      | (have htne : t ≠ [] := fun he => hthr (by rw [he])
         rw [if_neg (by rw [not_isEmpty_of_ne htne]; simp)]
         rfl)
      | (have hrne : r ≠ [] := fun he => hrto (by rw [he])
         rw [if_neg (by rw [not_isEmpty_of_ne hrne]; simp)]
         first
           | rfl
           | (have htne : t ≠ [] := fun he => hthr (by rw [he])
              rw [if_neg (by rw [not_isEmpty_of_ne htne]; simp)]
              rfl))

/-- Parsing one freshly written record block: `_parse_message` on the
line list that `_write_to_inbox` appends recovers the written fields. -/
theorem parseBlockD_entry (ts mid frm toU : Str) (thr rto : Option Str)
    (bodyLines : List Str) (hb : bodyLines ≠ [])
    (hbody : ∀ l ∈ bodyLines, containsL nlV l = false
      ∧ startsWithL starMsgV l = false ∧ containsL pstrV l = false
      ∧ containsL estrV l = false ∧ trimL l ≠ [])
    (hprops : ∀ l ∈ entryProps mid frm toU thr rto,
      containsL nlV l = false ∧ startsWithL starMsgV l = false
      ∧ containsL pstrV l = false ∧ containsL estrV l = false ∧ trimL l = l)
    (hts : containsL nlV ts = false)
    (hnt : thr ≠ some []) (hnd : rto ≠ some []) :
    parseBlockD (joinWith nlV ((ts ++ " :unread:".toList) :: pstrV ::
        (entryProps mid frm toU thr rto ++ estrV :: (bodyLines ++ [[]]))))
      = ⟨mid, frm, trimL (joinWith nlV bodyLines),
         timeOfD (ts ++ " :unread:".toList),
         containsL unreadTagV (ts ++ " :unread:".toList),
         containsL todoTagV (ts ++ " :unread:".toList),
         containsL doneTagV (ts ++ " :unread:".toList), thr, rto⟩ := by
  have hn : ∀ l ∈ (ts ++ " :unread:".toList) :: pstrV ::
      (entryProps mid frm toU thr rto ++ estrV :: (bodyLines ++ [[]])),
      containsL nlV l = false := by
    intro l hl
    simp only [List.mem_cons, List.mem_append, List.not_mem_nil, or_false] at hl
    rcases hl with rfl | rfl | h2 | rfl | h2 | rfl
    · exact noNl_append hts (by decide)
    · decide
    · exact (hprops l h2).1
    · decide
    · exact (hbody l h2).1
    · decide
  have hlines : splitOnL nlV (joinWith nlV ((ts ++ " :unread:".toList) :: pstrV ::
      (entryProps mid frm toU thr rto ++ estrV :: (bodyLines ++ [[]]))))
      = (ts ++ " :unread:".toList) :: pstrV ::
        (entryProps mid frm toU thr rto ++ estrV :: (bodyLines ++ [[]])) :=
    splitNl_join hn (by simp)
  have hprops2 : ∀ l ∈ entryProps mid frm toU thr rto,
      containsL pstrV l = false ∧ containsL estrV l = false ∧ trimL l = l :=
    fun l hl => ⟨(hprops l hl).2.2.1, (hprops l hl).2.2.2.1, (hprops l hl).2.2.2.2⟩
  have hbody2 : ∀ l ∈ bodyLines,
      containsL pstrV l = false ∧ containsL estrV l = false ∧ trimL l ≠ [] :=
    fun l hl => ⟨(hbody l hl).2.2.1, (hbody l hl).2.2.2.1, (hbody l hl).2.2.2.2⟩
  have hfold : List.foldl stepD ⟨[], [], false⟩ (pstrV ::
      (entryProps mid frm toU thr rto ++ estrV :: (bodyLines ++ [[]])))
      = ⟨entryDict mid frm toU thr rto [], bodyLines, false⟩ := by
    rw [List.foldl_cons, stepD_pstr]
    show List.foldl stepD ⟨[], [], true⟩
        (entryProps mid frm toU thr rto ++ estrV :: (bodyLines ++ [[]]))
      = ⟨entryDict mid frm toU thr rto [], bodyLines, false⟩
    rw [List.foldl_append, foldD_entryProps [] [] mid frm toU thr rto hnt hnd hprops2]
    rw [List.foldl_cons, stepD_estr]
    show List.foldl stepD ⟨entryDict mid frm toU thr rto [], [], false⟩
        (bodyLines ++ [[]])
      = ⟨entryDict mid frm toU thr rto [], bodyLines, false⟩
    rw [List.foldl_append,
      foldD_body bodyLines ⟨entryDict mid frm toU thr rto [], [], false⟩ rfl hbody2]
    show List.foldl stepD ⟨entryDict mid frm toU thr rto [], bodyLines, false⟩ [[]]
      = ⟨entryDict mid frm toU thr rto [], bodyLines, false⟩
    rw [List.foldl_cons, stepD_blank]
    rfl
  rw [parseBlockD]
  simp only [hlines, List.headD_cons, List.drop_one, List.tail_cons]
  rw [hfold]
  show (⟨dgetD (entryDict mid frm toU thr rto []) idKeyV [],
        dgetD (entryDict mid frm toU thr rto []) fromKeyV qmarkV,
        trimL (joinWith nlV bodyLines),
        timeOfD (ts ++ " :unread:".toList),
        containsL unreadTagV (ts ++ " :unread:".toList),
        containsL todoTagV (ts ++ " :unread:".toList),
        containsL doneTagV (ts ++ " :unread:".toList),
        dget (entryDict mid frm toU thr rto []) threadKeyV,
        dget (entryDict mid frm toU thr rto []) replyToKeyV⟩ : MsgD) = _
  rw [entryDict_id mid frm toU thr rto hnt hnd,
    entryDict_from mid frm toU thr rto hnt hnd,
    entryDict_thread mid frm toU thr rto hnt hnd,
    entryDict_replyto mid frm toU thr rto hnt hnd]

/-- C6 (amended): the round-trip property of §8 holds once restricted to
well-formed inputs.  If every body line is non-blank after stripping, free
of newlines, does not look like a record header, a `:PROPERTIES:` or an
`:END:` line, and the joined body is strip-stable; if the property values
(id, sender, recipient, optional thread / reply_to) produce property
lines free of newlines, header look-alikes and drawer delimiters that are
strip-stable, with the optional values non-empty when present; and if the
timestamp has no newline and the resulting header line neither starts a
new record nor contains `:todo:` / `:done:`; then parsing the file
produced by `_write_to_inbox` yields, as its last message, exactly the
written id, sender, body, an unread flag, and the written thread and
reply_to values.  (The unrestricted claim is refuted by
the blank-line counterexample recorded separately.) -/
theorem c6_roundtrip_amended (existing ts mid frm toU : Str) (thr rto : Option Str)
    (bodyLines : List Str) (hb : bodyLines ≠ [])
    (hbody : ∀ l ∈ bodyLines, containsL nlV l = false
      ∧ startsWithL starMsgV l = false ∧ containsL pstrV l = false
      ∧ containsL estrV l = false ∧ trimL l ≠ [])
    (hjoin : trimL (joinWith nlV bodyLines) = joinWith nlV bodyLines)
    (hprops : ∀ l ∈ entryProps mid frm toU thr rto,
      containsL nlV l = false ∧ startsWithL starMsgV l = false
      ∧ containsL pstrV l = false ∧ containsL estrV l = false ∧ trimL l = l)
    (hts : containsL nlV ts = false)
    (hhdr : startsWithL starMsgV (ts ++ " :unread:".toList) = false)
    (htd : containsL todoTagV (ts ++ " :unread:".toList) = false)
    (hdn : containsL doneTagV (ts ++ " :unread:".toList) = false)
    (hnt : thr ≠ some []) (hnd : rto ≠ some []) :
    (parseAllD (writeToInboxD existing ts mid frm toU thr rto
        (joinWith nlV bodyLines))).getLastD dfltMsgD
      = ⟨mid, frm, joinWith nlV bodyLines,
         timeOfD (ts ++ " :unread:".toList), true, false, false, thr, rto⟩ := by
  have hsw : ∀ l ∈ (ts ++ " :unread:".toList) :: pstrV ::
      (entryProps mid frm toU thr rto ++ estrV :: (bodyLines ++ [[]])),
      startsWithL starMsgV l = false := by
    intro l hl
    simp only [List.mem_cons, List.mem_append, List.not_mem_nil, or_false] at hl
    rcases hl with rfl | rfl | h2 | rfl | h2 | rfl
    · exact hhdr
    · decide
    · exact (hprops l h2).2.1
    · decide
    · exact (hbody l h2).2.1
    · decide
  have hn : ∀ l ∈ (ts ++ " :unread:".toList) :: pstrV ::
      (entryProps mid frm toU thr rto ++ estrV :: (bodyLines ++ [[]])),
      containsL nlV l = false := by
    intro l hl
    simp only [List.mem_cons, List.mem_append, List.not_mem_nil, or_false] at hl
    rcases hl with rfl | rfl | h2 | rfl | h2 | rfl
    · exact noNl_append hts (by decide)
    · decide
    · exact (hprops l h2).1
    · decide
    · exact (hbody l h2).1
    · decide
  have hnoMsep := no_msep_in_join _ hn hsw
  have hunread : containsL unreadTagV (ts ++ " :unread:".toList) = true := by
    have h1 := contains_append_sep unreadTagV (ts ++ [' ']) []
    rw [List.append_nil] at h1
    rw [show (" :unread:".toList : Str) = ' ' :: unreadTagV from rfl]
    rw [show ts ++ ' ' :: unreadTagV = (ts ++ [' ']) ++ unreadTagV by simp]
    exact h1
  rw [writeToInboxD, entry_as_join ts mid frm toU thr rto bodyLines hb,
    ← List.append_assoc]
  rw [parseAllD]
  have hlen : 2 ≤ (splitOnL msepV (existing ++ msepV ++
      joinWith nlV ((ts ++ " :unread:".toList) :: pstrV ::
        (entryProps mid frm toU thr rto ++ estrV :: (bodyLines ++ [[]]))))).length :=
    split_length_two (contains_append_sep msepV existing _) (by decide)
  rw [getLastD_map parseBlockD dfltMsgD [] _ (drop1_ne_nil hlen)]
  rw [getLastD_drop1 [] _ hlen]
  rw [split_last_chunk (by decide) (by decide) hnoMsep existing.length existing
    (le_refl _)]
  rw [parseBlockD_entry ts mid frm toU thr rto bodyLines hb hbody hprops hts hnt hnd]
  rw [hjoin, hunread, htd, hdn]

theorem c6_roundtrip_amended_witness :
    (parseAllD (writeToInboxD [] "[2025-01-01 Wed 10:00]".toList "m1".toList
        "alice".toList "bob".toList none none
        (joinWith nlV ["hello".toList]))).getLastD dfltMsgD
      = ⟨"m1".toList, "alice".toList, joinWith nlV ["hello".toList],
         timeOfD ("[2025-01-01 Wed 10:00]".toList ++ " :unread:".toList),
         true, false, false, none, none⟩ :=
  c6_roundtrip_amended [] "[2025-01-01 Wed 10:00]".toList "m1".toList
    "alice".toList "bob".toList none none ["hello".toList]
    (by decide) (by decide) (by decide) (by decide) (by decide) (by decide)
    (by decide) (by decide) (by decide) (by decide)


end DC
